import Mathlib

/-!
Shallow embedding of the fragility scoring engine of the fault-line
repository: `pipeline/compute_historical_scores.py` (the snapshot
time-series builder, namespace `Hist`) and `pipeline/recalculate_scores.py`
(the incremental score updater, namespace `Recalc`).

Dates are calendar triples; `toDays` is the standard civil day-number map,
embedding Python `datetime` comparison and `timedelta` day arithmetic.
A raw event date field is `missing` (key absent), `malformed` (a string
`strptime` rejects) or `valid`.  Python exceptions are modelled with
`Except Unit`.  File loading and printing are outside the embedding: the
scoring functions take the decoded data directly, and the load-time sort
of events by date key is dropped because no scored output depends on the
order of the event list.
-/

deriving instance DecidableEq for Except

structure Date where
  y : Nat
  m : Nat
  d : Nat
deriving DecidableEq

/-- Civil day number (days since 1970-01-01, proleptic Gregorian): the
standard `days_from_civil` algorithm, modelling `datetime` subtraction and
comparison for the calendar dates Python accepts. -/
def toDays (dt : Date) : Int :=
  let y : Int := if dt.m ≤ 2 then (dt.y : Int) - 1 else (dt.y : Int)
  let era : Int := y / 400
  let yoe : Int := y - era * 400
  let mp : Int := ((dt.m : Int) + 9) % 12
  let doy : Int := (153 * mp + 2) / 5 + (dt.d : Int) - 1
  let doe : Int := yoe * 365 + yoe / 4 - yoe / 100 + doy
  era * 146097 + doe - 719468

def isLeapYear (y : Nat) : Bool :=
  (y % 4 == 0 && y % 100 != 0) || y % 400 == 0

def daysInMonth (y m : Nat) : Nat :=
  if m == 2 then (if isLeapYear y then 29 else 28)
  else if m == 4 || m == 6 || m == 9 || m == 11 then 30
  else 31

def pad2 (n : Nat) : String := if n < 10 then "0" ++ toString n else toString n

def pad4 (n : Nat) : String :=
  if n < 10 then "000" ++ toString n
  else if n < 100 then "00" ++ toString n
  else if n < 1000 then "0" ++ toString n
  else toString n

/-- `strftime("%Y-%m-%d")` on a parsed date. -/
def fmtDate (dt : Date) : String := pad4 dt.y ++ "-" ++ pad2 dt.m ++ "-" ++ pad2 dt.d

/-- `datetime` comparison: chronological order, which on the valid calendar
dates `datetime` can hold coincides with lexicographic order of the triple. -/
def dateLe (a b : Date) : Bool :=
  decide (a.y < b.y ∨ (a.y = b.y ∧ (a.m < b.m ∨ (a.m = b.m ∧ a.d ≤ b.d))))

/-- Lexicographic order on code-point lists: Python string `<`. -/
def charListLt : List Char → List Char → Bool
  | [], [] => false
  | [], _ :: _ => true
  | _ :: _, [] => false
  | c :: cs, d :: ds =>
    if c.toNat < d.toNat then true
    else if d.toNat < c.toNat then false
    else charListLt cs ds

/-- Python `s < t` on strings. -/
def strLt (a b : String) : Bool := charListLt a.data b.data

/-- Python `s <= t` on strings. -/
def strLe (a b : String) : Bool := !(strLt b a)

/-- One step of Python `max` over strings: replace the accumulator when the
next element is strictly greater. -/
def strMax (a b : String) : String := if strLt a b then b else a

/-- The raw `"date"` field of an event record: absent, a string `strptime`
rejects, or a well-formed `YYYY-MM-DD` date. -/
inductive EDate where
  | missing
  | malformed (s : String)
  | valid (dt : Date)
deriving DecidableEq

/-- `event.get("date")`: the raw string value of the date field, if present. -/
def dateKeyOf : EDate → Option String
  | .missing => none
  | .malformed s => some s
  | .valid d => some (fmtDate d)

structure Event where
  id : String
  date : EDate
  lab : Option String
  dimension : Option String
  checklist_items_affected : List String
deriving DecidableEq

structure ChecklistItem where
  id : Option String
  dimension : Option String
  points : Option Int
deriving DecidableEq

structure Checklist where
  checklist_items : List ChecklistItem
deriving DecidableEq

structure DimScore where
  score : Int
  max : Int
  items_triggered : List String
deriving DecidableEq

/-- Python `max` over a list of optional strings (`None` vs `str`
comparison raises; a singleton is returned without comparison). -/
def pyMax : List (Option String) → Except Unit (Option String)
  | [] => .error ()
  | x :: xs => xs.foldlM (fun a b =>
      match a, b with
      | some s, some t => .ok (some (strMax s t))
      | _, _ => .error ()) x

/-- Python `min` over a nonempty list of date strings, carrying the parse
result of each string (`none` when `strptime` would reject it). -/
def pyMinPair : List (String × Option Date) → Except Unit (String × Option Date)
  | [] => .error ()
  | x :: xs => .ok (xs.foldl (fun a b => if strLt b.1 a.1 then b else a) x)

def pyMaxPair : List (String × Option Date) → Except Unit (String × Option Date)
  | [] => .error ()
  | x :: xs => .ok (xs.foldl (fun a b => if strLt a.1 b.1 then b else a) x)

/-- Python `set.add`: the triggered sets are modelled as duplicate-free
lists; only membership is observable (the lists are sorted before output). -/
def setInsert (a : String) (l : List String) : List String :=
  if l.contains a then l else a :: l

def insertSortedStr (a : String) : List String → List String
  | [] => [a]
  | b :: bs => if strLe a b then a :: b :: bs else b :: insertSortedStr a bs

/-- Python `sorted` on a list of strings. -/
def sortStrs (l : List String) : List String := l.foldr insertSortedStr []

/-- `enumerate`: map with the running index. -/
def mapIdxFrom (f : Nat → α → β) : Nat → List α → List β
  | _, [] => []
  | n, a :: as => f n a :: mapIdxFrom f (n + 1) as

namespace Hist

def DECAY_WINDOW_DAYS : Int := 180

def LABS : List String := ["openai", "anthropic", "deepmind", "xai", "meta"]

def DIMENSIONS : List String :=
  ["compute_chips", "cloud", "policy", "demand", "resilience"]

def LAB_FOUNDING_DATES : String → Option String := fun lab =>
  match lab with
  | "deepmind" => some "2010-11-01"
  | "meta" => some "2013-12-01"
  | "openai" => some "2015-12-01"
  | "anthropic" => some "2021-01-01"
  | "xai" => some "2023-07-01"
  | _ => none

/-- The default `"2099-01-01"` substituted for a missing date field. -/
def sentinelDate : Date := ⟨2099, 1, 1⟩

structure LabScoreH where
  total_score : Int
  breakdown : List (String × DimScore)
  events_count : Nat
  last_event_date : Option String
  trend : Option String
  rank : Option Nat
deriving DecidableEq

structure Snap where
  date : Date
  scores : List (String × Option LabScoreH)
deriving DecidableEq

structure HistOutput where
  version : Option String
  generated_at : Option String
  decay_window_days : Option Int
  snapshots : List Snap
deriving DecidableEq

/-- `_get_events_in_window`: a missing date parses as the sentinel
`2099-01-01`; a malformed date raises out of the whole call. -/
def getEventsInWindow : List Event → Date → String → Except Unit (List Event)
  | [], _, _ => .ok []
  | e :: rest, snapshotDate, lab =>
    if e.lab == some lab then
      match e.date with
      | .malformed _ => .error ()
      | .missing =>
        (getEventsInWindow rest snapshotDate lab).map fun tail =>
          if toDays snapshotDate - DECAY_WINDOW_DAYS ≤ toDays sentinelDate ∧
              toDays sentinelDate ≤ toDays snapshotDate then e :: tail else tail
      | .valid d =>
        (getEventsInWindow rest snapshotDate lab).map fun tail =>
          if toDays snapshotDate - DECAY_WINDOW_DAYS ≤ toDays d ∧
              toDays d ≤ toDays snapshotDate then e :: tail else tail
    else getEventsInWindow rest snapshotDate lab

/-- `_calculate_dimension_score`. -/
def calculateDimensionScore (checklist : Checklist) (events : List Event)
    (dimension : String) : DimScore :=
  let dimItems := checklist.checklist_items.filter fun it => it.dimension == some dimension
  let itemsTriggered : List String :=
    events.foldl (fun acc e =>
      if e.dimension == some dimension then
        e.checklist_items_affected.foldl (fun a itemId =>
          if (dimItems.find? fun it => it.id == some itemId).isSome then setInsert itemId a
          else a) acc
      else acc) []
  let score : Int := (itemsTriggered.map fun itemId =>
    match dimItems.find? fun it => it.id == some itemId with
    | some it => |it.points.getD 1|
    | none => 0).sum
  { score := min score 2, max := 2, items_triggered := sortStrs itemsTriggered }

/-- The dimension score the historical path assigns to one lab and one
dimension at one snapshot date: window selection composed with the
dimension scorer. -/
def dimScoreAt (checklist : Checklist) (events : List Event) (snapshotDate : Date)
    (lab dimension : String) : Except Unit Int :=
  (getEventsInWindow events snapshotDate lab).map
    fun evs => (calculateDimensionScore checklist evs dimension).score

/-- `_calculate_lab_score` (trend and rank are attached later; `None` means
the lab was not yet founded at the snapshot date). -/
def calculateLabScore (checklist : Checklist) (events : List Event)
    (snapshotDate : Date) (lab : String) : Except Unit (Option LabScoreH) :=
  if (LAB_FOUNDING_DATES lab).any (fun f => strLt (fmtDate snapshotDate) f) then
    .ok none
  else do
    let evs ← getEventsInWindow events snapshotDate lab
    let dimScore := fun dim => calculateDimensionScore checklist evs dim
    let breakdown := DIMENSIONS.map fun dim => (dim, dimScore dim)
    let fragilitySum := (dimScore "compute_chips").score + (dimScore "cloud").score +
      (dimScore "policy").score + (dimScore "demand").score
    let resilience := (dimScore "resilience").score
    let totalScore := max 0 (min 10 (fragilitySum - resilience))
    let lastEventDate ←
      if evs.isEmpty then pure none
      else pyMax (evs.map fun e => dateKeyOf e.date)
    pure (some { total_score := totalScore, breakdown := breakdown,
                 events_count := evs.length, last_event_date := lastEventDate,
                 trend := none, rank := none })

/-- The `prev_scores` list of `_calculate_trends` for index `i ≥ 3`: the
totals of the lab's defined scores among snapshots `i-3`, `i-2`, `i-1`
(`range(max(0, i-3), i)`). -/
def prevTotals (snaps : List Snap) (i : Nat) (labId : String) : List Int :=
  [i - 3, i - 2, i - 1].filterMap fun j =>
    match snaps[j]? with
    | some sj =>
      match sj.scores.lookup labId with
      | some (some pd) => some pd.total_score
      | _ => none
    | none => none

/-- Trend classification of one defined lab score at snapshot index `i`
of `_calculate_trends`. -/
def trendFor (snaps : List Snap) (i : Nat) (labId : String) (d : LabScoreH) : LabScoreH :=
  if i < 3 then { d with trend := some "stable" }
  else
    let prevScores := prevTotals snaps i labId
    if prevScores = [] then { d with trend := some "stable" }
    else
      let avgPrev : ℚ := (prevScores.sum : ℚ) / (prevScores.length : ℚ)
      let current := d.total_score
      if (current : ℚ) > avgPrev + 0.5 then { d with trend := some "worsening" }
      else if (current : ℚ) < avgPrev - 0.5 then { d with trend := some "improving" }
      else { d with trend := some "stable" }

/-- `_calculate_trends`: the in-place dict mutation only writes the `trend`
key, and the backward lookups read only `total_score`, so it is embedded as
a pure map over the snapshot list. -/
def calculateTrends (snaps : List Snap) : List Snap :=
  mapIdxFrom (fun i s =>
    { s with scores := s.scores.map fun p => (p.1, p.2.map (trendFor snaps i p.1)) })
    0 snaps

/-- Index of the (unique) entry carrying a given lab key. -/
def labIdx (lab : String) : List (String × LabScoreH) → Option Nat
  | [] => none
  | q :: qs => if q.1 == lab then some 0 else (labIdx lab qs).map (· + 1)

/-- `_add_rankings` for one snapshot: `list.sort` with `reverse=True` is a
stable descending sort by `total_score`; `enumerate` then writes each
ranked lab's position (the scores come from a dict, so lab keys are
unique and `labIdx` finds the entry the rank was written to). -/
def rankSnap (s : Snap) : Snap :=
  let valid := s.scores.filterMap fun p => p.2.map fun d => (p.1, d)
  let sorted := List.insertionSort (fun a b => b.2.total_score ≤ a.2.total_score) valid
  { s with scores := s.scores.map fun p =>
      (p.1, p.2.map fun d =>
        match labIdx p.1 sorted with
        | some idx => { d with rank := some (idx + 1) }
        | none => d) }

def addRankings (snaps : List Snap) : List Snap := snaps.map rankSnap

/-- Loop body of `_get_month_end_dates`; the fuel exceeds the number of
months between the two dates, so it never runs out on the reachable calls.
`next_month.replace(day=1) - timedelta(days=1)` is the last day of the
current month, i.e. `daysInMonth` (December is the source's special case
with day 31, which `daysInMonth` also yields). -/
def monthEndAux : Nat → Date → Date → List Date
  | 0, _, _ => []
  | fuel + 1, cur, endD =>
    if dateLe cur endD then
      let monthEnd : Date := ⟨cur.y, cur.m, daysInMonth cur.y cur.m⟩
      let next : Date := if cur.m == 12 then ⟨cur.y + 1, 1, 1⟩ else ⟨cur.y, cur.m + 1, 1⟩
      if dateLe monthEnd endD then monthEnd :: monthEndAux fuel next endD
      else monthEndAux fuel next endD
    else []

def getMonthEndDates (s e : Date) : List Date :=
  monthEndAux ((e.y + 1) * 12 + e.m + 1 - (s.y * 12 + s.m)) s e

/-- The snapshot-series computation of `compute_all_snapshots` on a
nonempty event list, up to the final output record. -/
def computeSnapshotsList (events : List Event) (checklist : Checklist)
    (today : Date) : Except Unit (List Snap) := do
  let datePairs := events.filterMap fun e =>
    match e.date with
    | .missing => none
    | .malformed s => if s = "" then none else some (s, (none : Option Date))
    | .valid d => some (fmtDate d, some d)
  let startPair ← pyMinPair datePairs
  let endPair0 ← pyMaxPair datePairs
  let endPair := if strLt endPair0.1 (fmtDate today) then (fmtDate today, some today)
    else endPair0
  let startDate ← match startPair.2 with
    | some d => Except.ok d
    | none => Except.error ()
  let endDate ← match endPair.2 with
    | some d => Except.ok d
    | none => Except.error ()
  let monthEnds := getMonthEndDates startDate endDate
  let snapshots ← monthEnds.mapM fun date => do
    let scores ← LABS.mapM fun lab => do
      let s ← calculateLabScore checklist events date lab
      pure (lab, s)
    pure ({ date := date, scores := scores } : Snap)
  let snapshots := calculateTrends snapshots
  pure (addRankings snapshots)

/-- `compute_all_snapshots`: on an empty event list only the `snapshots`
key is produced (the three other keys are `none` = absent).  `today` is
`datetime.now().strftime("%Y-%m-%d")` and `generatedAt` the generation
timestamp, both inputs of the embedding. -/
def computeAllSnapshots (events : List Event) (checklist : Checklist)
    (today : Date) (generatedAt : String) : Except Unit HistOutput :=
  if events.isEmpty then
    .ok { version := none, generated_at := none, decay_window_days := none, snapshots := [] }
  else
    (computeSnapshotsList events checklist today).map fun snapshots =>
      { version := some "1.0.0", generated_at := some generatedAt,
        decay_window_days := some DECAY_WINDOW_DAYS, snapshots := snapshots }

end Hist

/-- An instant in time (seconds), modelling a Python `datetime` with
time-of-day: a parsed `YYYY-MM-DD` date sits at midnight, `86400 * toDays`. -/
structure DateTime where
  secs : Int
deriving DecidableEq

namespace Recalc

def DECAY_WINDOW_DAYS : Int := 180

def LABS : List String := ["openai", "anthropic", "deepmind", "xai", "meta"]

def DIMENSIONS : List String :=
  ["compute_chips", "cloud", "policy", "demand", "resilience"]

structure CLInfo where
  dimension : String
  points : Int
deriving DecidableEq

/-- The module-level `CHECKLIST_ITEMS` dict, in insertion order. -/
def CHECKLIST_ITEMS : List (String × CLInfo) :=
  [("A1", ⟨"compute_chips", 1⟩), ("A2", ⟨"compute_chips", 1⟩),
   ("B1", ⟨"cloud", 1⟩), ("B2", ⟨"cloud", 1⟩),
   ("C1", ⟨"policy", 1⟩), ("C2", ⟨"policy", 1⟩),
   ("D1", ⟨"demand", 1⟩), ("D2", ⟨"demand", 1⟩),
   ("E1", ⟨"resilience", -1⟩), ("E2", ⟨"resilience", -1⟩)]

structure LabScoreR where
  lab_id : String
  total_score : Int
  breakdown : List (String × DimScore)
  events_count : Nat
  last_event_date : Option String
  trend : Option String
  rank : Option Nat
deriving DecidableEq

/-- A record of the previously persisted `scores.json` used for the trend
baseline (`total_score` is `none` when the key is absent). -/
structure OldScore where
  lab_id : String
  total_score : Option Int
deriving DecidableEq

structure RecalcOutput where
  last_updated : String
  scoring_version : String
  scores : List LabScoreR
deriving DecidableEq

/-- `get_events_in_window`: a missing or unparsable date is caught by the
`try`/`except` and the event is skipped. -/
def getEventsInWindow (events : List Event) (reference : DateTime)
    (windowDays : Int := DECAY_WINDOW_DAYS) : List Event :=
  events.filter fun e =>
    match e.date with
    | .valid d => decide (reference.secs - windowDays * 86400 ≤ toDays d * 86400 ∧
        toDays d * 86400 ≤ reference.secs)
    | _ => false

def pointsOf (itemId : String) : Int := ((CHECKLIST_ITEMS.lookup itemId).map (·.points)).getD 0

/-- The raw `e["date"]` indexing in the `last_event_date` block: raises
`KeyError` when the date key is absent. -/
def dateStrict : EDate → Except Unit String
  | .missing => .error ()
  | .malformed s => .ok s
  | .valid d => .ok (fmtDate d)

/-- Body of the per-dimension loop of `calculate_lab_score`, as a function
of the triggered-item set. -/
def dimScoreOf (triggeredItems : List String) (dimension : String) : DimScore :=
  let dimItems := (CHECKLIST_ITEMS.filter fun p => p.2.dimension == dimension).map (·.1)
  let triggeredInDim := dimItems.filter fun i => triggeredItems.contains i
  let score : Int :=
    if dimension == "resilience" then (triggeredInDim.length : Int)
    else (triggeredInDim.map pointsOf).sum
  { score := score, max := 2, items_triggered := triggeredInDim }

/-- `calculate_lab_score` (the `triggered_items` scratch field is deleted
from the record before output and is not modelled; `trend` and `rank` are
attached by the driver). -/
def calculateLabScore (labId : String) (events : List Event) : Except Unit LabScoreR :=
  let labEvents := events.filter fun e => e.lab == some labId
  let triggeredItems : List String :=
    labEvents.foldl (fun acc e =>
      e.checklist_items_affected.foldl (fun a i => setInsert i a) acc) []
  let breakdown := DIMENSIONS.map fun dimension => (dimension, dimScoreOf triggeredItems dimension)
  let rawTotal := (dimScoreOf triggeredItems "compute_chips").score +
    (dimScoreOf triggeredItems "cloud").score + (dimScoreOf triggeredItems "policy").score +
    (dimScoreOf triggeredItems "demand").score - (dimScoreOf triggeredItems "resilience").score
  let totalScore := max 0 (min 10 rawTotal)
  do
    let lastEventDate ←
      if labEvents.isEmpty then pure none
      else do
        let dates ← labEvents.mapM fun e => dateStrict e.date
        match dates with
        | [] => Except.error ()
        | x :: xs => pure (some (xs.foldl strMax x))
    pure { lab_id := labId, total_score := totalScore, breakdown := breakdown,
           events_count := labEvents.length, last_event_date := lastEventDate,
           trend := none, rank := none }

/-- `calculate_trend`. -/
def calculateTrend (currentScore previousScore : Int) : String :=
  if currentScore < previousScore then "improving"
  else if currentScore > previousScore then "worsening"
  else "stable"

/-- The dict comprehension `{s["lab_id"]: s for s in old}`: on duplicate
keys the last record wins. -/
def oldScoreLookup (old : List OldScore) (labId : String) : Option OldScore :=
  old.foldl (fun acc o => if o.lab_id == labId then some o else acc) none

/-- Sort key `(-total_score, lab_id)` of the ranking sort, as a `≤`. -/
def scoreKeyLe (a b : LabScoreR) : Bool :=
  if b.total_score < a.total_score then true
  else if a.total_score < b.total_score then false
  else strLe a.lab_id b.lab_id

/-- `enumerate` writing `rank = i + 1` down the sorted list. -/
def assignRanks : Nat → List LabScoreR → List LabScoreR
  | _, [] => []
  | i, a :: as => { a with rank := some i } :: assignRanks (i + 1) as

/-- Body of the per-lab loop of `main`: score one lab over the active
events, then attach the trend against the previously persisted total
(defaulting to the current total when no previous score exists). -/
def scoreWithTrend (oldScores : List OldScore) (activeEvents : List Event)
    (labId : String) : Except Unit LabScoreR := do
  let scoreData ← calculateLabScore labId activeEvents
  let previousScore := ((oldScoreLookup oldScores labId).bind (·.total_score)).getD
    scoreData.total_score
  pure { scoreData with
    trend := some (calculateTrend scoreData.total_score previousScore) }

/-- The scoring part of `main`: loads are done, `reference` is
`datetime.now()` and `lastUpdated` the formatted output timestamp. -/
def recalcScores (events : List Event) (oldScores : List OldScore)
    (reference : DateTime) (lastUpdated : String) : Except Unit RecalcOutput := do
  let activeEvents := getEventsInWindow events reference
  let labScores ← LABS.mapM (scoreWithTrend oldScores activeEvents)
  let sorted := List.insertionSort (fun a b => scoreKeyLe a b = true) labScores
  let ranked := assignRanks 1 sorted
  pure { last_updated := lastUpdated, scoring_version := "1.0.0", scores := ranked }

end Recalc
/-- The incremental updater's built-in `CHECKLIST_ITEMS` presented in the
file format the historical path loads (`checklist.json` carries the same
ten items). -/
def builtinChecklist : Checklist :=
  ⟨Recalc.CHECKLIST_ITEMS.map fun p =>
    { id := some p.1, dimension := some p.2.dimension, points := some p.2.points }⟩

/-- The string a valid event date renders to (unused placeholder for the
other cases, which are excluded by hypothesis where this is used). -/
def dateStrOf (e : Event) : String :=
  match e.date with
  | EDate.valid d => fmtDate d
  | _ => ""

/-- Lookup of one dimension's score in a breakdown mapping. -/
def bdScore (bd : List (String × DimScore)) (dim : String) : Int :=
  ((bd.lookup dim).map (·.score)).getD 0

/-- C10: with "today" and the input data held fixed, two runs of the
Snapshot Time-Series Builder agree on the version, decay-window and the
whole snapshot sequence; only the generation timestamp can differ. -/
theorem C10_determinism (events : List Event) (checklist : Checklist) (today : Date)
    (t1 t2 : String) :
    (Hist.computeAllSnapshots events checklist today t1).map
        (fun o => (o.version, o.decay_window_days, o.snapshots)) =
      (Hist.computeAllSnapshots events checklist today t2).map
        (fun o => (o.version, o.decay_window_days, o.snapshots)) := by
  unfold Hist.computeAllSnapshots
  cases h : events.isEmpty
  · cases hc : Hist.computeSnapshotsList events checklist today <;>
      simp [h, hc, Except.map]
  · simp [h]

/-- C7 counterexample: on an empty events list, `compute_all_snapshots`
returns a dict with only the `snapshots` key; `version`, `generated_at`
and `decay_window_days` are absent. -/
theorem C7_counterexample :
    Hist.computeAllSnapshots [] ⟨[]⟩ ⟨2024, 1, 31⟩ "ts" =
      .ok { version := none, generated_at := none, decay_window_days := none,
            snapshots := [] } := by
  rfl

/-- C7 amended: whenever the events list is nonempty and the run completes,
the Historical Scores output carries all four top-level keys. -/
theorem C7_amended_output_keys (events : List Event) (checklist : Checklist)
    (today : Date) (ts : String) (out : Hist.HistOutput) (hne : events ≠ [])
    (h : Hist.computeAllSnapshots events checklist today ts = .ok out) :
    out.version = some "1.0.0" ∧ out.generated_at = some ts ∧
      out.decay_window_days = some 180 := by
  unfold Hist.computeAllSnapshots at h
  rw [if_neg (by simpa using hne)] at h
  cases hc : Hist.computeSnapshotsList events checklist today with
  | error e => rw [hc] at h; simp [Except.map] at h
  | ok snaps =>
    rw [hc] at h
    simp only [Except.map] at h
    cases h
    exact ⟨rfl, rfl, rfl⟩

theorem C7_amended_output_keys_witness :
    (([⟨"e1", .valid ⟨2024, 1, 10⟩, some "openai", some "compute_chips", []⟩] :
        List Event) ≠ []) ∧
    (Hist.computeAllSnapshots
        [⟨"e1", .valid ⟨2024, 1, 10⟩, some "openai", some "compute_chips", []⟩]
        ⟨[]⟩ ⟨2024, 1, 15⟩ "ts" =
      .ok { version := some "1.0.0", generated_at := some "ts",
            decay_window_days := some 180, snapshots := [] }) ∧
    ({ version := some "1.0.0", generated_at := some "ts",
       decay_window_days := some 180, snapshots := [] } : Hist.HistOutput).version
        = some "1.0.0" := by
  refine ⟨by decide, by decide, ?_⟩
  exact (C7_amended_output_keys
    [⟨"e1", .valid ⟨2024, 1, 10⟩, some "openai", some "compute_chips", []⟩]
    ⟨[]⟩ ⟨2024, 1, 15⟩ "ts"
    { version := some "1.0.0", generated_at := some "ts",
      decay_window_days := some 180, snapshots := [] }
    (by decide) (by decide)).1
/-- C6: in both code paths the total score is the clamp to [0, 10] of
compute_chips + cloud + policy + demand - resilience over the five
dimension scores of the breakdown, hence always within [0, 10]. -/
theorem C6_total_clamp :
    (∀ (checklist : Checklist) (events : List Event) (date : Date) (lab : String)
        (ls : Hist.LabScoreH),
      Hist.calculateLabScore checklist events date lab = .ok (some ls) →
      ls.total_score = max 0 (min 10 (bdScore ls.breakdown "compute_chips" +
          bdScore ls.breakdown "cloud" + bdScore ls.breakdown "policy" +
          bdScore ls.breakdown "demand" - bdScore ls.breakdown "resilience")) ∧
        0 ≤ ls.total_score ∧ ls.total_score ≤ 10) ∧
    (∀ (labId : String) (events : List Event) (s : Recalc.LabScoreR),
      Recalc.calculateLabScore labId events = .ok s →
      s.total_score = max 0 (min 10 (bdScore s.breakdown "compute_chips" +
          bdScore s.breakdown "cloud" + bdScore s.breakdown "policy" +
          bdScore s.breakdown "demand" - bdScore s.breakdown "resilience")) ∧
        0 ≤ s.total_score ∧ s.total_score ≤ 10) := by
  constructor
  · intro checklist events date lab ls h
    unfold Hist.calculateLabScore at h
    split at h
    · simp at h
    · cases hw : Hist.getEventsInWindow events date lab with
      | error e => rw [hw] at h; simp [Bind.bind, Except.bind] at h
      | ok evs =>
        rw [hw] at h
        simp only [Bind.bind, Except.bind] at h
        split at h
        · simp only [Pure.pure, Except.pure, Except.ok.injEq, Option.some.injEq] at h
          subst h
          exact ⟨rfl, le_max_left _ _, max_le (by norm_num) (min_le_left _ _)⟩
        · cases hp : pyMax (evs.map fun e => dateKeyOf e.date) with
          | error e => rw [hp] at h; simp at h
          | ok led =>
            rw [hp] at h
            simp only [Pure.pure, Except.pure, Except.ok.injEq, Option.some.injEq] at h
            subst h
            exact ⟨rfl, le_max_left _ _, max_le (by norm_num) (min_le_left _ _)⟩
  · intro labId events s h
    unfold Recalc.calculateLabScore at h
    simp only [Bind.bind, Except.bind] at h
    split at h
    · simp only [Pure.pure, Except.pure, Except.ok.injEq] at h
      subst h
      exact ⟨rfl, le_max_left _ _, max_le (by norm_num) (min_le_left _ _)⟩
    · cases hm : List.mapM (fun e => Recalc.dateStrict e.date)
          (List.filter (fun e => e.lab == some labId) events) with
      | error e => rw [hm] at h; simp at h
      | ok dates =>
        rw [hm] at h
        simp only [Pure.pure, Except.pure] at h
        cases dates with
        | nil => simp at h
        | cons x xs =>
          simp only [Except.ok.injEq] at h
          subst h
          exact ⟨rfl, le_max_left _ _, max_le (by norm_num) (min_le_left _ _)⟩

theorem C6_total_clamp_witness :
    (Hist.calculateLabScore ⟨[]⟩ [] ⟨2024, 1, 31⟩ "openai" = .ok (some
      { total_score := 0,
        breakdown := [("compute_chips", ⟨0, 2, []⟩), ("cloud", ⟨0, 2, []⟩),
                      ("policy", ⟨0, 2, []⟩), ("demand", ⟨0, 2, []⟩),
                      ("resilience", ⟨0, 2, []⟩)],
        events_count := 0, last_event_date := none, trend := none, rank := none })) ∧
    (Recalc.calculateLabScore "openai" [] = .ok
      { lab_id := "openai", total_score := 0,
        breakdown := [("compute_chips", ⟨0, 2, []⟩), ("cloud", ⟨0, 2, []⟩),
                      ("policy", ⟨0, 2, []⟩), ("demand", ⟨0, 2, []⟩),
                      ("resilience", ⟨0, 2, []⟩)],
        events_count := 0, last_event_date := none, trend := none, rank := none }) ∧
    ({ total_score := 0,
       breakdown := [("compute_chips", ⟨0, 2, []⟩), ("cloud", ⟨0, 2, []⟩),
                     ("policy", ⟨0, 2, []⟩), ("demand", ⟨0, 2, []⟩),
                     ("resilience", ⟨0, 2, []⟩)],
       events_count := 0, last_event_date := none, trend := none,
       rank := none } : Hist.LabScoreH).total_score ≤ 10 := by
  refine ⟨by decide, by decide, ?_⟩
  exact (C6_total_clamp.1 ⟨[]⟩ [] ⟨2024, 1, 31⟩ "openai"
    { total_score := 0,
      breakdown := [("compute_chips", ⟨0, 2, []⟩), ("cloud", ⟨0, 2, []⟩),
                    ("policy", ⟨0, 2, []⟩), ("demand", ⟨0, 2, []⟩),
                    ("resilience", ⟨0, 2, []⟩)],
      events_count := 0, last_event_date := none, trend := none, rank := none }
    (by decide)).2.2
/-- C3 counterexample: the historical window filter defaults a missing
event date to the far-future sentinel `2099-01-01` (so the event is
*included* in the window of a snapshot near that date instead of being
excluded), and it fails outright on a present but unparsable date. -/
theorem C3_counterexample :
    Hist.getEventsInWindow
        [⟨"e1", .missing, some "openai", some "cloud", []⟩] ⟨2099, 1, 15⟩ "openai" =
      .ok [⟨"e1", .missing, some "openai", some "cloud", []⟩] ∧
    Hist.getEventsInWindow
        [⟨"e2", .malformed "not-a-date", some "openai", some "cloud", []⟩]
        ⟨2024, 1, 15⟩ "openai" = .error () :=
  ⟨by decide, by decide⟩

/-- C3 amended: the incremental path admits only events with parseable
dates and never fails; the historical path treats a missing date as the
sentinel `2099-01-01` (such an event enters a window only when the
sentinel date itself lies in it) and raises on a present but unparsable
date of a lab-matching event. -/
theorem C3_amended_date_handling :
    (∀ (events : List Event) (ref : DateTime) (w : Int) (e : Event),
      e ∈ Recalc.getEventsInWindow events ref w → ∃ d, e.date = EDate.valid d) ∧
    (∀ (events : List Event) (sd : Date) (lab : String) (l : List Event),
      Hist.getEventsInWindow events sd lab = .ok l →
      ∀ e ∈ l, e.date = EDate.missing →
        toDays sd - Hist.DECAY_WINDOW_DAYS ≤ toDays Hist.sentinelDate ∧
          toDays Hist.sentinelDate ≤ toDays sd) ∧
    (∀ (events : List Event) (sd : Date) (lab : String) (e : Event),
      e ∈ events → e.lab = some lab → (∃ s, e.date = EDate.malformed s) →
      Hist.getEventsInWindow events sd lab = .error ()) := by
  refine ⟨?_, ?_, ?_⟩
  · intro events ref w e hmem
    unfold Recalc.getEventsInWindow at hmem
    rw [List.mem_filter] at hmem
    obtain ⟨-, hp⟩ := hmem
    cases hd : e.date with
    | valid d => exact ⟨d, rfl⟩
    | missing => rw [hd] at hp; simp at hp
    | malformed s => rw [hd] at hp; simp at hp
  · intro events
    induction events with
    | nil =>
      intro sd lab l h e he _
      unfold Hist.getEventsInWindow at h
      cases h
      simp at he
    | cons a rest ih =>
      intro sd lab l h e he hd
      unfold Hist.getEventsInWindow at h
      split at h
      · cases hd2 : a.date with
        | malformed s => rw [hd2] at h; simp at h
        | missing =>
          rw [hd2] at h
          cases hr : Hist.getEventsInWindow rest sd lab with
          | error err => rw [hr] at h; simp [Except.map] at h
          | ok tail =>
            rw [hr] at h
            simp only [Except.map, Except.ok.injEq] at h
            subst h
            split at he
            · rename_i hcond
              rcases List.mem_cons.mp he with rfl | htail
              · exact hcond
              · exact ih sd lab tail hr e htail hd
            · exact ih sd lab tail hr e he hd
        | valid d =>
          rw [hd2] at h
          cases hr : Hist.getEventsInWindow rest sd lab with
          | error err => rw [hr] at h; simp [Except.map] at h
          | ok tail =>
            rw [hr] at h
            simp only [Except.map, Except.ok.injEq] at h
            subst h
            split at he
            · rcases List.mem_cons.mp he with rfl | htail
              · rw [hd2] at hd; cases hd
              · exact ih sd lab tail hr e htail hd
            · exact ih sd lab tail hr e he hd
      · exact ih sd lab l h e he hd
  · intro events
    induction events with
    | nil => intro sd lab e he; simp at he
    | cons a rest ih =>
      intro sd lab e he hlab hmal
      unfold Hist.getEventsInWindow
      rcases List.mem_cons.mp he with rfl | htail
      · rw [hlab]
        simp only [beq_self_eq_true, if_true]
        obtain ⟨s, hs⟩ := hmal
        rw [hs]
      · have hrec := ih sd lab e htail hlab hmal
        split
        · cases hd2 : a.date with
          | malformed s => rfl
          | missing => rw [hrec]; rfl
          | valid d => rw [hrec]; rfl
        · exact hrec

theorem C3_amended_date_handling_witness :
    ((⟨"e1", .valid ⟨2024, 1, 10⟩, some "openai", some "cloud", []⟩ : Event) ∈
        Recalc.getEventsInWindow
          [⟨"e1", .valid ⟨2024, 1, 10⟩, some "openai", some "cloud", []⟩]
          ⟨86400 * toDays ⟨2024, 1, 10⟩⟩ 180) ∧
    (∃ d, (⟨"e1", .valid ⟨2024, 1, 10⟩, some "openai", some "cloud", []⟩ : Event).date =
      EDate.valid d) ∧
    ((⟨"e2", .malformed "nope", some "openai", some "cloud", []⟩ : Event) ∈
        [(⟨"e2", .malformed "nope", some "openai", some "cloud", []⟩ : Event)]) ∧
    Hist.getEventsInWindow
        [⟨"e2", .malformed "nope", some "openai", some "cloud", []⟩]
        ⟨2024, 1, 15⟩ "openai" = .error () := by
  refine ⟨by decide, ?_, by decide, ?_⟩
  · exact C3_amended_date_handling.1
      [⟨"e1", .valid ⟨2024, 1, 10⟩, some "openai", some "cloud", []⟩]
      ⟨86400 * toDays ⟨2024, 1, 10⟩⟩ 180
      ⟨"e1", .valid ⟨2024, 1, 10⟩, some "openai", some "cloud", []⟩ (by decide)
  · exact C3_amended_date_handling.2.2
      [⟨"e2", .malformed "nope", some "openai", some "cloud", []⟩] ⟨2024, 1, 15⟩ "openai"
      ⟨"e2", .malformed "nope", some "openai", some "cloud", []⟩
      (by decide) rfl ⟨"nope", rfl⟩
/-- Every event selected by the incremental window filter has a parseable date. -/
lemma recalc_window_valid {events : List Event} {ref : DateTime} {w : Int} {e : Event}
    (hmem : e ∈ Recalc.getEventsInWindow events ref w) : ∃ d, e.date = EDate.valid d := by
  unfold Recalc.getEventsInWindow at hmem
  rw [List.mem_filter] at hmem
  obtain ⟨-, hp⟩ := hmem
  cases hd : e.date with
  | valid d => exact ⟨d, rfl⟩
  | missing => rw [hd] at hp; simp at hp
  | malformed s => rw [hd] at hp; simp at hp

/-- `mapM dateStrict` succeeds on a list of events with parseable dates. -/
lemma mapM_dateStrict_ok : ∀ (l : List Event),
    (∀ e ∈ l, ∃ d, e.date = EDate.valid d) →
    ∃ dates, List.mapM (fun e => Recalc.dateStrict e.date) l = .ok dates ∧
      dates.length = l.length := by
  intro l
  induction l with
  | nil => intro _; exact ⟨[], rfl, rfl⟩
  | cons a rest ih =>
    intro hv
    obtain ⟨d, hd⟩ := hv a (List.mem_cons_self a rest)
    obtain ⟨dates, hm, hlen⟩ := ih (fun e he => hv e (List.mem_cons_of_mem a he))
    refine ⟨fmtDate d :: dates, ?_, by simp [hlen]⟩
    rw [List.mapM_cons]
    have hstep : Recalc.dateStrict a.date = Except.ok (fmtDate d) := by
      rw [hd]; rfl
    simp only [Bind.bind, Except.bind, Pure.pure, Except.pure, hstep, hm]

/-- On events whose dates all parse, the incremental per-lab scorer
succeeds and stamps the requested lab id. -/
lemma recalc_calc_ok (labId : String) (events : List Event)
    (hv : ∀ e ∈ events, ∃ d, e.date = EDate.valid d) :
    ∃ r, Recalc.calculateLabScore labId events = .ok r ∧ r.lab_id = labId := by
  unfold Recalc.calculateLabScore
  simp only [Bind.bind, Except.bind]
  split
  · exact ⟨_, rfl, rfl⟩
  · rename_i hne
    obtain ⟨dates, hm, hlen⟩ := mapM_dateStrict_ok
      (events.filter fun e => e.lab == some labId)
      (fun e he => hv e (List.mem_filter.mp he).1)
    rw [hm]
    cases dates with
    | nil =>
      exfalso
      apply hne
      rw [List.isEmpty_iff, ← List.length_eq_zero, ← hlen]
      rfl
    | cons x xs => exact ⟨_, rfl, rfl⟩

/-- Ranks are stamped onto records without touching their lab ids. -/
lemma assignRanks_map_lab : ∀ (n : Nat) (l : List Recalc.LabScoreR),
    (Recalc.assignRanks n l).map (·.lab_id) = l.map (·.lab_id) := by
  intro n l
  induction l generalizing n with
  | nil => rfl
  | cons a rest ih => simp [Recalc.assignRanks, ih]

/-- The per-lab loop step succeeds and stamps the lab id. -/
lemma scoreWithTrend_ok (old : List Recalc.OldScore) (active : List Event)
    (labId : String) (hv : ∀ e ∈ active, ∃ d, e.date = EDate.valid d) :
    ∃ t, Recalc.scoreWithTrend old active labId = .ok t ∧ t.lab_id = labId := by
  obtain ⟨r, hr, hl⟩ := recalc_calc_ok labId active hv
  refine ⟨{ r with trend := some (Recalc.calculateTrend r.total_score
    (((Recalc.oldScoreLookup old labId).bind (fun o => o.total_score)).getD
      r.total_score)) }, ?_, hl⟩
  unfold Recalc.scoreWithTrend
  rw [hr]
  rfl

/-- The whole per-lab loop succeeds and yields records whose lab ids are
exactly the iterated labs. -/
lemma mapM_scoreWithTrend_ok (old : List Recalc.OldScore) (active : List Event)
    (hv : ∀ e ∈ active, ∃ d, e.date = EDate.valid d) : ∀ (labs : List String),
    ∃ ts, List.mapM (Recalc.scoreWithTrend old active) labs = .ok ts ∧
      ts.map (·.lab_id) = labs := by
  intro labs
  induction labs with
  | nil => exact ⟨[], rfl, rfl⟩
  | cons a rest ih =>
    obtain ⟨t, ht, hlab⟩ := scoreWithTrend_ok old active a hv
    obtain ⟨ts, hts, hmap⟩ := ih
    refine ⟨t :: ts, ?_, by simp [hlab, hmap]⟩
    rw [List.mapM_cons, ht]
    simp only [Bind.bind, Except.bind, Pure.pure, Except.pure, hts]
/-- C4 counterexample: at a reference date of 2023-01-01, before xai's
founding date 2023-07-01, the historical path leaves xai's score
undefined but the incremental updater still computes a LabScore for xai
(its `main` loop has no founding-date check). -/
theorem C4_counterexample :
    Hist.LAB_FOUNDING_DATES "xai" = some "2023-07-01" ∧
    strLt (fmtDate ⟨2023, 1, 1⟩) "2023-07-01" = true ∧
    Hist.calculateLabScore ⟨[]⟩ [] ⟨2023, 1, 1⟩ "xai" = .ok none ∧
    (Recalc.recalcScores [] [] ⟨86400 * toDays ⟨2023, 1, 1⟩⟩ "t").map
        (fun o => o.scores.any fun s => s.lab_id == "xai") = .ok true :=
  ⟨rfl, by decide, by decide, by decide⟩

/-- C4 amended: founding-date gating holds in the Snapshot Time-Series
Builder (a lab founded after the snapshot date gets no LabScore), but the
Incremental Score Updater computes a LabScore for every tracked lab at
every reference date, founding dates notwithstanding. -/
theorem C4_amended_founding_gating :
    (∀ (checklist : Checklist) (events : List Event) (date : Date) (lab f : String),
      Hist.LAB_FOUNDING_DATES lab = some f → strLt (fmtDate date) f = true →
      Hist.calculateLabScore checklist events date lab = .ok none) ∧
    (∀ (events : List Event) (oldScores : List Recalc.OldScore) (ref : DateTime)
        (ts : String),
      ∃ out, Recalc.recalcScores events oldScores ref ts = .ok out ∧
        ∀ lab ∈ Recalc.LABS, ∃ s ∈ out.scores, s.lab_id = lab) := by
  constructor
  · intro checklist events date lab f hf hlt
    unfold Hist.calculateLabScore
    rw [hf]
    simp [Option.any, hlt]
  · intro events old ref ts
    have hv : ∀ e ∈ Recalc.getEventsInWindow events ref Recalc.DECAY_WINDOW_DAYS,
        ∃ d, e.date = EDate.valid d := fun _ he => recalc_window_valid he
    obtain ⟨lts, hts, hmap⟩ := mapM_scoreWithTrend_ok old
      (Recalc.getEventsInWindow events ref Recalc.DECAY_WINDOW_DAYS) hv Recalc.LABS
    unfold Recalc.recalcScores
    simp only [Bind.bind, Except.bind, hts, Pure.pure, Except.pure]
    refine ⟨_, rfl, ?_⟩
    intro lab hlab
    have hperm := List.perm_insertionSort (fun a b => Recalc.scoreKeyLe a b = true) lts
    have h4 : lab ∈ (Recalc.assignRanks 1
        (List.insertionSort (fun a b => Recalc.scoreKeyLe a b = true) lts)).map
          (·.lab_id) := by
      rw [assignRanks_map_lab]
      exact ((hperm.map (·.lab_id)).mem_iff).mpr (by rw [hmap]; exact hlab)
    obtain ⟨s, hsm, hsl⟩ := List.mem_map.mp h4
    exact ⟨s, hsm, hsl⟩

theorem C4_amended_founding_gating_witness :
    Hist.LAB_FOUNDING_DATES "xai" = some "2023-07-01" ∧
    strLt (fmtDate ⟨2023, 1, 1⟩) "2023-07-01" = true ∧
    Hist.calculateLabScore ⟨[]⟩ [] ⟨2023, 1, 1⟩ "xai" = .ok none ∧
    (∃ out, Recalc.recalcScores [] [] ⟨86400 * toDays ⟨2023, 1, 1⟩⟩ "t" = .ok out ∧
      ∀ lab ∈ Recalc.LABS, ∃ s ∈ out.scores, s.lab_id = lab) :=
  ⟨rfl, by decide,
    C4_amended_founding_gating.1 ⟨[]⟩ [] ⟨2023, 1, 1⟩ "xai" "2023-07-01" rfl (by decide),
    C4_amended_founding_gating.2 [] [] ⟨86400 * toDays ⟨2023, 1, 1⟩⟩ "t"⟩
/-- Every per-dimension score of the incremental scorer lies in [0, 2],
whatever the triggered-item set: each dimension of the built-in catalog
has exactly two items, worth one point each for the non-resilience
dimensions, and resilience is scored by item count. -/
lemma dimScoreOf_bounds (T : List String) (d : String) (hd : d ∈ Recalc.DIMENSIONS) :
    0 ≤ (Recalc.dimScoreOf T d).score ∧ (Recalc.dimScoreOf T d).score ≤ 2 := by
  have pA1 : Recalc.pointsOf "A1" = 1 := by decide
  have pA2 : Recalc.pointsOf "A2" = 1 := by decide
  have pB1 : Recalc.pointsOf "B1" = 1 := by decide
  have pB2 : Recalc.pointsOf "B2" = 1 := by decide
  have pC1 : Recalc.pointsOf "C1" = 1 := by decide
  have pC2 : Recalc.pointsOf "C2" = 1 := by decide
  have pD1 : Recalc.pointsOf "D1" = 1 := by decide
  have pD2 : Recalc.pointsOf "D2" = 1 := by decide
  fin_cases hd
  · by_cases h1 : "A1" ∈ T <;> by_cases h2 : "A2" ∈ T <;>
      simp [Recalc.dimScoreOf, Recalc.CHECKLIST_ITEMS, h1, h2, pA1, pA2]
  · by_cases h1 : "B1" ∈ T <;> by_cases h2 : "B2" ∈ T <;>
      simp [Recalc.dimScoreOf, Recalc.CHECKLIST_ITEMS, h1, h2, pB1, pB2]
  · by_cases h1 : "C1" ∈ T <;> by_cases h2 : "C2" ∈ T <;>
      simp [Recalc.dimScoreOf, Recalc.CHECKLIST_ITEMS, h1, h2, pC1, pC2]
  · by_cases h1 : "D1" ∈ T <;> by_cases h2 : "D2" ∈ T <;>
      simp [Recalc.dimScoreOf, Recalc.CHECKLIST_ITEMS, h1, h2, pD1, pD2]
  · by_cases h1 : "E1" ∈ T <;> by_cases h2 : "E2" ∈ T <;>
      simp [Recalc.dimScoreOf, Recalc.CHECKLIST_ITEMS, h1, h2]

/-- C2: every dimension score produced by either code path lies in [0, 2]:
the historical scorer caps a sum of absolute point values at 2, and the
incremental scorer's built-in catalog bounds each dimension by two
one-point items (resp. a count of at most two resilience items). -/
theorem C2_dimension_score_bounds :
    (∀ (checklist : Checklist) (events : List Event) (dim : String),
      0 ≤ (Hist.calculateDimensionScore checklist events dim).score ∧
        (Hist.calculateDimensionScore checklist events dim).score ≤ 2) ∧
    (∀ (labId : String) (events : List Event) (s : Recalc.LabScoreR),
      Recalc.calculateLabScore labId events = .ok s →
      ∀ p ∈ s.breakdown, 0 ≤ p.2.score ∧ p.2.score ≤ 2) := by
  constructor
  · intro checklist events dim
    refine ⟨le_min ?_ (by norm_num), min_le_right _ _⟩
    apply List.sum_nonneg
    intro x hx
    obtain ⟨i, -, rfl⟩ := List.mem_map.mp hx
    split
    · exact abs_nonneg _
    · exact le_refl 0
  · intro labId events s h
    unfold Recalc.calculateLabScore at h
    simp only [Bind.bind, Except.bind] at h
    split at h
    · simp only [Pure.pure, Except.pure, Except.ok.injEq] at h
      subst h
      intro p hp
      obtain ⟨dd, hdd, rfl⟩ := List.mem_map.mp hp
      exact dimScoreOf_bounds _ dd hdd
    · cases hm : List.mapM (fun e => Recalc.dateStrict e.date)
          (List.filter (fun e => e.lab == some labId) events) with
      | error e => rw [hm] at h; simp at h
      | ok dates =>
        rw [hm] at h
        simp only [Pure.pure, Except.pure] at h
        cases dates with
        | nil => simp at h
        | cons x xs =>
          simp only [Except.ok.injEq] at h
          subst h
          intro p hp
          obtain ⟨dd, hdd, rfl⟩ := List.mem_map.mp hp
          exact dimScoreOf_bounds _ dd hdd

theorem C2_dimension_score_bounds_witness :
    (Recalc.calculateLabScore "openai" [] = .ok
      { lab_id := "openai", total_score := 0,
        breakdown := [("compute_chips", ⟨0, 2, []⟩), ("cloud", ⟨0, 2, []⟩),
                      ("policy", ⟨0, 2, []⟩), ("demand", ⟨0, 2, []⟩),
                      ("resilience", ⟨0, 2, []⟩)],
        events_count := 0, last_event_date := none, trend := none, rank := none }) ∧
    (0 ≤ (("compute_chips", (⟨0, 2, []⟩ : DimScore)).2.score) ∧
      ("compute_chips", (⟨0, 2, []⟩ : DimScore)).2.score ≤ 2) := by
  refine ⟨by decide, ?_⟩
  exact C2_dimension_score_bounds.2 "openai" []
    { lab_id := "openai", total_score := 0,
      breakdown := [("compute_chips", ⟨0, 2, []⟩), ("cloud", ⟨0, 2, []⟩),
                    ("policy", ⟨0, 2, []⟩), ("demand", ⟨0, 2, []⟩),
                    ("resilience", ⟨0, 2, []⟩)],
      events_count := 0, last_event_date := none, trend := none, rank := none }
    (by decide) ("compute_chips", ⟨0, 2, []⟩) (by decide)
lemma mapIdxFrom_getElem? (f : Nat → α → β) : ∀ (n : Nat) (l : List α) (i : Nat),
    (mapIdxFrom f n l)[i]? = (l[i]?).map (f (n + i)) := by
  intro n l
  induction l generalizing n with
  | nil => intro i; simp [mapIdxFrom]
  | cons a as ih =>
    intro i
    cases i with
    | zero => simp [mapIdxFrom]
    | succ j =>
      simp only [mapIdxFrom, List.getElem?_cons_succ, ih (n + 1) j]
      rw [Nat.add_right_comm n 1 j, Nat.add_assoc]

/-- Key lookup through the per-lab trend map of one snapshot. -/
lemma lookup_map_trend (l : List (String × Option Hist.LabScoreH))
    (g : String → Hist.LabScoreH → Hist.LabScoreH) (lab : String) :
    List.lookup lab (l.map fun p => (p.1, p.2.map (g p.1))) =
      (List.lookup lab l).map (fun od => od.map (g lab)) := by
  induction l with
  | nil => rfl
  | cons p rest ih =>
    simp only [List.map_cons, List.lookup]
    cases h : lab == p.1 with
    | true =>
      have heq : lab = p.1 := eq_of_beq h
      simp only [h]
      rw [heq]
      rfl
    | false => simp only [h]; exact ih

lemma trendFor_total_score (snaps : List Hist.Snap) (i : Nat) (lab : String)
    (d : Hist.LabScoreH) : (Hist.trendFor snaps i lab d).total_score = d.total_score := by
  simp only [Hist.trendFor]
  split_ifs <;> rfl

lemma trendFor_trend (snaps : List Hist.Snap) (i : Nat) (lab : String)
    (d : Hist.LabScoreH) :
    (Hist.trendFor snaps i lab d).trend = some (
      if i < 3 then "stable"
      else if Hist.prevTotals snaps i lab = [] then "stable"
      else if (d.total_score : ℚ) > ((Hist.prevTotals snaps i lab).sum : ℚ) /
          ((Hist.prevTotals snaps i lab).length : ℚ) + 0.5 then "worsening"
      else if (d.total_score : ℚ) < ((Hist.prevTotals snaps i lab).sum : ℚ) /
          ((Hist.prevTotals snaps i lab).length : ℚ) - 0.5 then "improving"
      else "stable") := by
  simp only [Hist.trendFor]
  split_ifs <;> rfl

/-- C8: in the historical series, a defined lab score at snapshot index i
is classified "stable" when fewer than 3 snapshots precede i or none of
the up-to-3 most recent preceding snapshots define the lab's score;
otherwise, with A the average total over those defined preceding scores,
it is "worsening" when current > A + 0.5, "improving" when
current < A - 0.5, and "stable" otherwise. -/
theorem C8_trend_classification (snaps : List Hist.Snap) (i : Nat) (s : Hist.Snap)
    (lab : String) (d : Hist.LabScoreH)
    (hs : (Hist.calculateTrends snaps)[i]? = some s)
    (hd : s.scores.lookup lab = some (some d)) :
    d.trend = some (
      if i < 3 then "stable"
      else if Hist.prevTotals snaps i lab = [] then "stable"
      else if (d.total_score : ℚ) > ((Hist.prevTotals snaps i lab).sum : ℚ) /
          ((Hist.prevTotals snaps i lab).length : ℚ) + 0.5 then "worsening"
      else if (d.total_score : ℚ) < ((Hist.prevTotals snaps i lab).sum : ℚ) /
          ((Hist.prevTotals snaps i lab).length : ℚ) - 0.5 then "improving"
      else "stable") := by
  unfold Hist.calculateTrends at hs
  rw [mapIdxFrom_getElem?] at hs
  cases ho : snaps[i]? with
  | none => rw [ho] at hs; simp at hs
  | some s0 =>
    rw [ho] at hs
    simp only [Option.map_some', Option.some.injEq, Nat.zero_add] at hs
    subst hs
    rw [lookup_map_trend s0.scores (Hist.trendFor snaps i) lab] at hd
    cases hl0 : List.lookup lab s0.scores with
    | none => rw [hl0] at hd; simp at hd
    | some od =>
      rw [hl0] at hd
      cases od with
      | none => simp at hd
      | some d0 =>
        simp only [Option.map_some', Option.some.injEq] at hd
        subst hd
        rw [trendFor_total_score]
        exact trendFor_trend snaps i lab d0

theorem C8_trend_classification_witness :
    ((Hist.calculateTrends
        [⟨⟨2024, 1, 31⟩, [("openai", some
          { total_score := 0, breakdown := [], events_count := 0,
            last_event_date := none, trend := none, rank := none })]⟩])[0]? =
      some ⟨⟨2024, 1, 31⟩, [("openai", some
        { total_score := 0, breakdown := [], events_count := 0,
          last_event_date := none, trend := some "stable", rank := none })]⟩) ∧
    ((⟨⟨2024, 1, 31⟩, [("openai", some
        { total_score := 0, breakdown := [], events_count := 0,
          last_event_date := none, trend := some "stable", rank := none })]⟩ :
      Hist.Snap).scores.lookup "openai" = some (some
        { total_score := 0, breakdown := [], events_count := 0,
          last_event_date := none, trend := some "stable", rank := none })) ∧
    ({ total_score := 0, breakdown := [], events_count := 0,
       last_event_date := none, trend := some "stable",
       rank := none } : Hist.LabScoreH).trend = some "stable" := by
  refine ⟨by decide, by decide, ?_⟩
  exact C8_trend_classification
    [⟨⟨2024, 1, 31⟩, [("openai", some
      { total_score := 0, breakdown := [], events_count := 0,
        last_event_date := none, trend := none, rank := none })]⟩] 0
    ⟨⟨2024, 1, 31⟩, [("openai", some
      { total_score := 0, breakdown := [], events_count := 0,
        last_event_date := none, trend := some "stable", rank := none })]⟩
    "openai"
    { total_score := 0, breakdown := [], events_count := 0,
      last_event_date := none, trend := some "stable", rank := none }
    (by decide) (by decide)
lemma except_map_ok {ε α β : Type} (f : α → β) (a : α) :
    Except.map f (Except.ok a : Except ε α) = .ok (f a) := rfl

/-- Appending one lab-matching, valid-dated event to the event list extends
each historical window by that event exactly when its date falls in the
window. -/
lemma window_append_valid (E : List Event) (e : Event) (sd : Date) (lab : String)
    (hlab : e.lab = some lab) (d : Date) (hd : e.date = EDate.valid d) :
    Hist.getEventsInWindow (E ++ [e]) sd lab =
      (Hist.getEventsInWindow E sd lab).map (fun l =>
        l ++ (if toDays sd - Hist.DECAY_WINDOW_DAYS ≤ toDays d ∧ toDays d ≤ toDays sd
          then [e] else [])) := by
  induction E with
  | nil =>
    simp only [List.nil_append]
    unfold Hist.getEventsInWindow
    rw [hlab, hd]
    simp only [beq_self_eq_true, if_true]
    have h0 : Hist.getEventsInWindow [] sd lab = .ok [] := rfl
    rw [h0]
    simp only [except_map_ok]
    split <;> rfl
  | cons a rest ih =>
    simp only [List.cons_append]
    unfold Hist.getEventsInWindow
    split
    · cases hda : a.date with
      | malformed s => simp [Except.map]
      | missing =>
        rw [ih]
        cases hw : Hist.getEventsInWindow rest sd lab
        · simp [Except.map]
        · simp only [Except.map]
          split <;> simp
      | valid d2 =>
        rw [ih]
        cases hw : Hist.getEventsInWindow rest sd lab
        · simp [Except.map]
        · simp only [Except.map]
          split <;> simp
    · exact ih

/-- A fold whose step only prepends to the accumulator only prepends. -/
lemma foldl_prefix_generic {α : Type} (step : List String → α → List String)
    (hstep : ∀ acc a, ∃ pre, step acc a = pre ++ acc) :
    ∀ (l : List α) (acc : List String), ∃ pre, l.foldl step acc = pre ++ acc := by
  intro l
  induction l with
  | nil => intro acc; exact ⟨[], rfl⟩
  | cons a rest ih =>
    intro acc
    obtain ⟨p1, h1⟩ := hstep acc a
    obtain ⟨p2, h2⟩ := ih (step acc a)
    refine ⟨p2 ++ p1, ?_⟩
    rw [List.foldl_cons, h2, h1, List.append_assoc]

/-- The nested item fold only prepends new identifiers. -/
lemma itemsFold_prefix (P : String → Bool) (items : List String) (acc : List String) :
    ∃ pre, items.foldl (fun a i => if P i then setInsert i a else a) acc = pre ++ acc := by
  refine foldl_prefix_generic _ ?_ items acc
  intro acc2 i
  by_cases hp : P i
  · by_cases hc : i ∈ acc2
    · exact ⟨[], by simp [hp, setInsert, hc]⟩
    · exact ⟨[i], by simp [hp, setInsert, hc]⟩
  · exact ⟨[], by simp [hp]⟩

/-- A capped weighted sum over a triggered list only grows when the list
is extended in front, for nonnegative weights. -/
lemma score_le_of_prefix (w : String → Int) (hw : ∀ i, 0 ≤ w i) (T T' : List String)
    (h : ∃ pre, T' = pre ++ T) :
    min ((T.map w).sum) 2 ≤ min ((T'.map w).sum) 2 := by
  obtain ⟨pre, rfl⟩ := h
  refine min_le_min ?_ (le_refl 2)
  rw [List.map_append, List.sum_append]
  exact le_add_of_nonneg_left (List.sum_nonneg (by
    intro x hx
    obtain ⟨i, -, rfl⟩ := List.mem_map.mp hx
    exact hw i))

/-- Appending events never decreases a historical dimension score. -/
lemma dimScore_append_le (checklist : Checklist) (l : List Event) (e : Event)
    (D : String) :
    (Hist.calculateDimensionScore checklist l D).score ≤
      (Hist.calculateDimensionScore checklist (l ++ [e]) D).score := by
  unfold Hist.calculateDimensionScore
  simp only [List.foldl_append, List.foldl_cons, List.foldl_nil]
  apply score_le_of_prefix
  · intro i
    split
    · exact abs_nonneg _
    · exact le_refl 0
  · by_cases hdim : (e.dimension == some D) = true
    · simp only [hdim, if_true]
      exact itemsFold_prefix _ e.checklist_items_affected _
    · simp only [hdim]
      exact ⟨[], by simp⟩

/-- C9: adding one event that triggers a previously untriggered checklist
item of dimension D never decreases the historical path's dimension-D
score for that lab at snapshot dates on or after the event's date, and
leaves it unchanged at snapshot dates strictly before the event's date. -/
theorem C9_monotonicity (checklist : Checklist) (events : List Event) (e : Event)
    (L D : String) (d : Date)
    (hlab : e.lab = some L) (hdate : e.date = EDate.valid d)
    (htrig : ∃ id ∈ e.checklist_items_affected,
      (∃ it ∈ checklist.checklist_items, it.id = some id ∧ it.dimension = some D) ∧
        ∀ e2 ∈ events, id ∉ e2.checklist_items_affected) :
    ∀ s : Date,
      (toDays s < toDays d →
        Hist.dimScoreAt checklist (events ++ [e]) s L D =
          Hist.dimScoreAt checklist events s L D) ∧
      (toDays d ≤ toDays s →
        ∀ v w, Hist.dimScoreAt checklist events s L D = .ok v →
          Hist.dimScoreAt checklist (events ++ [e]) s L D = .ok w → v ≤ w) := by
  intro s
  constructor
  · intro hlt
    unfold Hist.dimScoreAt
    rw [window_append_valid events e s L hlab d hdate]
    have hcond : ¬(toDays s - Hist.DECAY_WINDOW_DAYS ≤ toDays d ∧ toDays d ≤ toDays s) := by
      rintro ⟨-, h2⟩
      omega
    rw [if_neg hcond]
    cases hw : Hist.getEventsInWindow events s L <;> simp [Except.map]
  · intro hge v w hv hw2
    unfold Hist.dimScoreAt at hv hw2
    rw [window_append_valid events e s L hlab d hdate] at hw2
    cases hwE : Hist.getEventsInWindow events s L with
    | error err => rw [hwE] at hv; simp [Except.map] at hv
    | ok l =>
      rw [hwE] at hv hw2
      simp only [except_map_ok, Except.ok.injEq] at hv hw2
      subst hv
      subst hw2
      by_cases hc : toDays s - Hist.DECAY_WINDOW_DAYS ≤ toDays d ∧ toDays d ≤ toDays s
      · rw [if_pos hc]
        exact dimScore_append_le checklist l e D
      · rw [if_neg hc]
        simp

theorem C9_monotonicity_witness :
    ((⟨"e1", .valid ⟨2024, 1, 10⟩, some "openai", some "compute_chips",
        ["A1"]⟩ : Event).lab = some "openai") ∧
    ((⟨"e1", .valid ⟨2024, 1, 10⟩, some "openai", some "compute_chips",
        ["A1"]⟩ : Event).date = EDate.valid ⟨2024, 1, 10⟩) ∧
    (∃ id ∈ (⟨"e1", .valid ⟨2024, 1, 10⟩, some "openai", some "compute_chips",
        ["A1"]⟩ : Event).checklist_items_affected,
      (∃ it ∈ (⟨[⟨some "A1", some "compute_chips", some 1⟩]⟩ :
          Checklist).checklist_items,
        it.id = some id ∧ it.dimension = some "compute_chips") ∧
        ∀ e2 ∈ ([] : List Event), id ∉ e2.checklist_items_affected) ∧
    (toDays ⟨2024, 1, 10⟩ ≤ toDays ⟨2024, 1, 31⟩) ∧
    (Hist.dimScoreAt ⟨[⟨some "A1", some "compute_chips", some 1⟩]⟩ []
      ⟨2024, 1, 31⟩ "openai" "compute_chips" = .ok 0) ∧
    (Hist.dimScoreAt ⟨[⟨some "A1", some "compute_chips", some 1⟩]⟩
      ([] ++ [⟨"e1", .valid ⟨2024, 1, 10⟩, some "openai", some "compute_chips", ["A1"]⟩])
      ⟨2024, 1, 31⟩ "openai" "compute_chips" = .ok 1) ∧
    (0 : Int) ≤ 1 := by
  refine ⟨rfl, rfl, by decide, by decide, by decide, by decide, ?_⟩
  exact (C9_monotonicity ⟨[⟨some "A1", some "compute_chips", some 1⟩]⟩ []
    ⟨"e1", .valid ⟨2024, 1, 10⟩, some "openai", some "compute_chips", ["A1"]⟩
    "openai" "compute_chips" ⟨2024, 1, 10⟩ rfl rfl (by decide) ⟨2024, 1, 31⟩).2
    (by decide) 0 1 (by decide) (by decide)
lemma charListLt_irrefl : ∀ x, charListLt x x = false := by
  intro x
  induction x with
  | nil => rfl
  | cons c cs ih => simp [charListLt, ih]

lemma charListLt_asymm : ∀ x y, charListLt x y = true → charListLt y x = false := by
  intro x
  induction x with
  | nil => intro y h; cases y with
    | nil => rfl
    | cons d ds => rfl
  | cons c cs ih =>
    intro y h
    cases y with
    | nil => cases h
    | cons d ds =>
      unfold charListLt at h ⊢
      by_cases hcd : c.toNat < d.toNat
      · have hdc : ¬d.toNat < c.toNat := by omega
        simp [hcd, hdc]
      · by_cases hdc : d.toNat < c.toNat
        · simp [hcd, hdc] at h
        · simp [hcd, hdc] at h ⊢
          exact ih ds h

lemma charListLt_trans : ∀ x y z, charListLt x y = true → charListLt y z = true →
    charListLt x z = true := by
  intro x
  induction x with
  | nil =>
    intro y z hxy hyz
    cases y with
    | nil => cases hxy
    | cons d ds =>
      cases z with
      | nil => cases hyz
      | cons e es => rfl
  | cons c cs ih =>
    intro y z hxy hyz
    cases y with
    | nil => cases hxy
    | cons d ds =>
      cases z with
      | nil => cases hyz
      | cons e es =>
        unfold charListLt at hxy hyz ⊢
        by_cases hcd : c.toNat < d.toNat
        · by_cases hde : d.toNat < e.toNat
          · have hce : c.toNat < e.toNat := by omega
            simp [hce]
          · by_cases hed : e.toNat < d.toNat
            · simp [hde, hed] at hyz
            · have : d.toNat = e.toNat := by omega
              have hce : c.toNat < e.toNat := by omega
              simp [hce]
        · by_cases hdc : d.toNat < c.toNat
          · simp [hcd, hdc] at hxy
          · have hcdeq : c.toNat = d.toNat := by omega
            by_cases hde : d.toNat < e.toNat
            · have hce : c.toNat < e.toNat := by omega
              simp [hce]
            · by_cases hed : e.toNat < d.toNat
              · simp [hde, hed] at hyz
              · have hce : ¬c.toNat < e.toNat := by omega
                have hec : ¬e.toNat < c.toNat := by omega
                simp [hcd, hdc] at hxy
                simp [hde, hed] at hyz
                simp [hce, hec]
                exact ih ds es hxy hyz

lemma charListLt_connex : ∀ x y, charListLt x y = false → charListLt y x = false →
    x = y := by
  intro x
  induction x with
  | nil =>
    intro y hxy _
    cases y with
    | nil => rfl
    | cons d ds => cases hxy
  | cons c cs ih =>
    intro y hxy hyx
    cases y with
    | nil => cases hyx
    | cons d ds =>
      unfold charListLt at hxy hyx
      by_cases hcd : c.toNat < d.toNat
      · simp [hcd] at hxy
      · by_cases hdc : d.toNat < c.toNat
        · simp [hcd, hdc] at hyx
        · simp [hcd, hdc] at hxy hyx
          have hceq : c = d := by
            have : c.toNat = d.toNat := by omega
            exact Char.eq_of_val_eq (by
              have h1 : c.val.toNat = d.val.toNat := this
              exact UInt32.eq_of_val_eq (Fin.ext h1))
          rw [hceq, ih ds hxy hyx]

lemma strLt_trans (a b c : String) (h1 : strLt a b = true) (h2 : strLt b c = true) :
    strLt a c = true := charListLt_trans _ _ _ h1 h2

lemma strLt_connex (a b : String) (h1 : strLt a b = false) (h2 : strLt b a = false) :
    a = b := by
  cases a with
  | mk la =>
    cases b with
    | mk lb => exact congrArg String.mk (charListLt_connex la lb h1 h2)

lemma scoreKeyLe_true_iff (a b : Recalc.LabScoreR) :
    Recalc.scoreKeyLe a b = true ↔ (b.total_score < a.total_score ∨
      (a.total_score = b.total_score ∧ strLt b.lab_id a.lab_id = false)) := by
  unfold Recalc.scoreKeyLe strLe
  by_cases hba : b.total_score < a.total_score
  · rw [if_pos hba]
    constructor
    · intro _; exact Or.inl hba
    · intro _; rfl
  · rw [if_neg hba]
    by_cases hab : a.total_score < b.total_score
    · rw [if_pos hab]
      constructor
      · intro h; cases h
      · rintro (h | ⟨h, -⟩)
        · exact absurd h hba
        · exact absurd hab (by omega)
    · rw [if_neg hab]
      have heq : a.total_score = b.total_score := by omega
      constructor
      · intro h
        exact Or.inr ⟨heq, by simpa using h⟩
      · rintro (h | ⟨-, h⟩)
        · exact absurd h hba
        · simp [h]

lemma scoreKeyLe_total (a b : Recalc.LabScoreR) :
    Recalc.scoreKeyLe a b = true ∨ Recalc.scoreKeyLe b a = true := by
  rw [scoreKeyLe_true_iff, scoreKeyLe_true_iff]
  rcases lt_trichotomy a.total_score b.total_score with h | h | h
  · right; left; exact h
  · by_cases hlt : strLt b.lab_id a.lab_id = true
    · right
      right
      exact ⟨h.symm, charListLt_asymm _ _ hlt⟩
    · left
      right
      exact ⟨h, by simpa using hlt⟩
  · left; left; exact h

lemma scoreKeyLe_trans (a b c : Recalc.LabScoreR) (h1 : Recalc.scoreKeyLe a b = true)
    (h2 : Recalc.scoreKeyLe b c = true) : Recalc.scoreKeyLe a c = true := by
  rw [scoreKeyLe_true_iff] at h1 h2 ⊢
  rcases h1 with h1 | ⟨he1, hs1⟩
  · rcases h2 with h2 | ⟨he2, hs2⟩
    · left; omega
    · left; omega
  · rcases h2 with h2 | ⟨he2, hs2⟩
    · left; omega
    · right
      refine ⟨by omega, ?_⟩
      by_cases hca : strLt c.lab_id a.lab_id = true
      · by_cases hbc2 : strLt b.lab_id c.lab_id = true
        · have hba := strLt_trans _ _ _ hbc2 hca
          simp [hba] at hs1
        · have hcb2 : strLt b.lab_id c.lab_id = false := by simpa using hbc2
          have hcb : c.lab_id = b.lab_id := strLt_connex _ _ hs2 hcb2
          rw [hcb] at hca
          simp [hca] at hs1
      · simpa using hca

lemma assignRanks_map_rank : ∀ (l : List Recalc.LabScoreR) (n : Nat),
    (Recalc.assignRanks n l).map (·.rank) =
      (List.range l.length).map (fun i => some (n + i)) := by
  intro l
  induction l with
  | nil => intro n; rfl
  | cons a as ih =>
    intro n
    rw [Recalc.assignRanks, List.map_cons, ih (n + 1), List.length_cons,
      List.range_succ_eq_map, List.map_cons, List.map_map]
    congr 1
    refine List.map_congr_left ?_
    intro i _
    simp only [Function.comp_apply]
    exact congrArg some (by omega)

lemma assignRanks_length (l : List Recalc.LabScoreR) (n : Nat) :
    (Recalc.assignRanks n l).length = l.length := by
  have h := congrArg List.length (assignRanks_map_lab n l)
  simpa using h

lemma assignRanks_mem : ∀ (l : List Recalc.LabScoreR) (n : Nat) (b : Recalc.LabScoreR),
    b ∈ Recalc.assignRanks n l → ∃ i a2, a2 ∈ l ∧ b = { a2 with rank := some i } := by
  intro l
  induction l with
  | nil => intro n b hb; cases hb
  | cons a as ih =>
    intro n b hb
    rcases List.mem_cons.mp hb with rfl | hb2
    · exact ⟨n, a, List.mem_cons_self a as, rfl⟩
    · obtain ⟨i, a2, ha2, rfl⟩ := ih (n + 1) b hb2
      exact ⟨i, a2, List.mem_cons_of_mem a ha2, rfl⟩

lemma assignRanks_sorted : ∀ (l : List Recalc.LabScoreR) (n : Nat),
    List.Sorted (fun a b => Recalc.scoreKeyLe a b = true) l →
    List.Sorted (fun a b => Recalc.scoreKeyLe a b = true) (Recalc.assignRanks n l) := by
  intro l
  induction l with
  | nil => intro n h; exact h
  | cons a as ih =>
    intro n h
    rcases List.sorted_cons.mp h with ⟨hhead, htail⟩
    rw [Recalc.assignRanks]
    refine List.sorted_cons.mpr ⟨?_, ih (n + 1) htail⟩
    intro b hb
    obtain ⟨i, a2, ha2, rfl⟩ := assignRanks_mem as (n + 1) b hb
    exact hhead a2 ha2

lemma labIdx_spec : ∀ (L : List (String × Hist.LabScoreH)) (key : String) (i : Nat),
    Hist.labIdx key L = some i → ∃ h : i < L.length, (L.get ⟨i, h⟩).1 = key := by
  intro L
  induction L with
  | nil => intro key i h; cases h
  | cons q qs ih =>
    intro key i h
    unfold Hist.labIdx at h
    by_cases hbeq : (q.1 == key) = true
    · rw [if_pos hbeq] at h
      cases h
      exact ⟨Nat.succ_pos _, eq_of_beq hbeq⟩
    · rw [if_neg hbeq] at h
      obtain ⟨j, hj, rfl⟩ := Option.map_eq_some'.mp h
      obtain ⟨hlt, hkey⟩ := ih key j hj
      exact ⟨Nat.succ_lt_succ hlt, hkey⟩

lemma labIdx_of_get : ∀ (L : List (String × Hist.LabScoreH)),
    (L.map Prod.fst).Nodup → ∀ (i : Nat) (h : i < L.length),
    Hist.labIdx (L.get ⟨i, h⟩).1 L = some i := by
  intro L
  induction L with
  | nil => intro _ i h; cases h
  | cons q qs ih =>
    intro hnd i h
    rw [List.map_cons, List.nodup_cons] at hnd
    obtain ⟨hnotin, hnd2⟩ := hnd
    cases i with
    | zero => simp [Hist.labIdx]
    | succ j =>
      have hj : j < qs.length := Nat.lt_of_succ_lt_succ h
      simp only [List.get_cons_succ]
      have hne : ¬q.1 = qs[j].1 := by
        intro heq
        apply hnotin
        rw [heq]
        exact List.mem_map_of_mem _ (List.getElem_mem hj)
      unfold Hist.labIdx
      rw [if_neg (by simp [hne]), ih hnd2 j hj]
      rfl

lemma labIdx_isSome_of_mem : ∀ (L : List (String × Hist.LabScoreH)) (key : String),
    key ∈ L.map Prod.fst → ∃ i, Hist.labIdx key L = some i := by
  intro L
  induction L with
  | nil => intro key h; cases h
  | cons q qs ih =>
    intro key h
    by_cases hbeq : (q.1 == key) = true
    · exact ⟨0, by unfold Hist.labIdx; rw [if_pos hbeq]⟩
    · rw [List.map_cons, List.mem_cons] at h
      rcases h with rfl | h2
      · simp at hbeq
      · obtain ⟨j, hj⟩ := ih key h2
        refine ⟨j + 1, ?_⟩
        unfold Hist.labIdx
        rw [if_neg hbeq, hj]
        rfl

lemma eq_of_mem_keys_nodup : ∀ (L : List (String × Hist.LabScoreH)),
    (L.map Prod.fst).Nodup → ∀ p q, p ∈ L → q ∈ L → p.1 = q.1 → p = q := by
  intro L
  induction L with
  | nil => intro _ p q hp; cases hp
  | cons a rest ih =>
    intro hnd p q hp hq hpq
    rw [List.map_cons, List.nodup_cons] at hnd
    obtain ⟨hnotin, hnd2⟩ := hnd
    rcases List.mem_cons.mp hp with rfl | hp2
    · rcases List.mem_cons.mp hq with rfl | hq2
      · rfl
      · exact absurd (hpq ▸ List.mem_map_of_mem Prod.fst hq2) hnotin
    · rcases List.mem_cons.mp hq with rfl | hq2
      · exact absurd (hpq ▸ List.mem_map_of_mem Prod.fst hp2) hnotin
      · exact ih hnd2 p q hp2 hq2 hpq

lemma valid_keys_sublist (scores : List (String × Option Hist.LabScoreH)) :
    ((scores.filterMap fun p => p.2.map fun d => (p.1, d)).map Prod.fst).Sublist
      (scores.map Prod.fst) := by
  induction scores with
  | nil => exact List.Sublist.refl _
  | cons p rest ih =>
    cases hp : p.2 with
    | none =>
      simp only [List.filterMap_cons, hp, List.map_cons]
      exact ih.cons _
    | some d =>
      simp only [List.filterMap_cons, hp, Option.map_some', List.map_cons]
      exact ih.cons₂ _

lemma valid_length_eq (scores : List (String × Option Hist.LabScoreH)) :
    (scores.filterMap fun p => p.2.map fun d => (p.1, d)).length =
      (scores.filterMap fun p => p.2).length := by
  induction scores with
  | nil => rfl
  | cons p rest ih =>
    cases hp : p.2 <;> simp [List.filterMap_cons, hp, ih]

lemma ranks_filterMap (sorted : List (String × Hist.LabScoreH)) :
    ∀ (scores : List (String × Option Hist.LabScoreH)),
    (∀ p ∈ scores, ∀ d, p.2 = some d → ∃ i, Hist.labIdx p.1 sorted = some i) →
    ((scores.map fun p => (p.1, p.2.map fun d =>
        match Hist.labIdx p.1 sorted with
        | some idx => { d with rank := some (idx + 1) }
        | none => d)).filterMap fun p => p.2.bind (·.rank)) =
      (scores.filterMap fun p => p.2.map fun d => (p.1, d)).map
        (fun q => (Hist.labIdx q.1 sorted).getD 0 + 1) := by
  intro scores
  induction scores with
  | nil => intro _; rfl
  | cons p rest ih =>
    intro hOK
    cases hp : p.2 with
    | none =>
      simp only [List.map_cons, List.filterMap_cons, hp, Option.map_none',
        Option.none_bind]
      exact ih fun q hq => hOK q (List.mem_cons_of_mem p hq)
    | some d =>
      obtain ⟨i, hi⟩ := hOK p (List.mem_cons_self p rest) d hp
      simp only [List.map_cons, List.filterMap_cons, hp, Option.map_some',
        Option.some_bind, hi]
      rw [ih fun q hq => hOK q (List.mem_cons_of_mem p hq)]
      rfl
/-- C5 counterexample: one triggerless event leaves all five labs tied at
total 0 in the single snapshot; the historical ranking then follows the
LABS iteration order (openai first), not the lab identifier order, even
though "anthropic" < "openai" lexically. -/
theorem C5_counterexample :
    (Hist.computeAllSnapshots
        [⟨"e1", .valid ⟨2024, 1, 10⟩, some "openai", some "compute_chips", []⟩]
        ⟨[]⟩ ⟨2024, 1, 31⟩ "ts").map
      (fun o => o.snapshots.map fun s => s.scores.map fun p => (p.1, p.2.bind (·.rank)))
    = .ok [[("openai", some 1), ("anthropic", some 2), ("deepmind", some 3),
            ("xai", some 4), ("meta", some 5)]] ∧
    (Hist.computeAllSnapshots
        [⟨"e1", .valid ⟨2024, 1, 10⟩, some "openai", some "compute_chips", []⟩]
        ⟨[]⟩ ⟨2024, 1, 31⟩ "ts").map
      (fun o => o.snapshots.map fun s => s.scores.map fun p =>
        (p.1, p.2.map (·.total_score)))
    = .ok [[("openai", some 0), ("anthropic", some 0), ("deepmind", some 0),
            ("xai", some 0), ("meta", some 0)]] ∧
    strLt "anthropic" "openai" = true :=
  ⟨by decide, by decide, by decide⟩

/-- C5 amended: in both paths exactly the labs with a defined score are
ranked, with dense ranks 1..K, and rank order never violates descending
total score; the incremental path sorts by (total descending, lab id
ascending), while the historical path breaks ties by the fixed lab
iteration order instead of the lab identifier. -/
theorem C5_amended_ranking :
    (∀ (s : Hist.Snap), (s.scores.map Prod.fst).Nodup →
      (((Hist.rankSnap s).scores.filterMap fun p => p.2.bind (·.rank)).Perm
        ((List.range (s.scores.filterMap fun p => p.2).length).map fun i => i + 1)) ∧
      (∀ pa ∈ (Hist.rankSnap s).scores, ∀ pb ∈ (Hist.rankSnap s).scores,
        ∀ da db ra rb, pa.2 = some da → pb.2 = some db →
          da.rank = some ra → db.rank = some rb → ra < rb →
          db.total_score ≤ da.total_score)) ∧
    (∀ (events : List Event) (old : List Recalc.OldScore) (ref : DateTime)
        (ts : String) (out : Recalc.RecalcOutput),
      Recalc.recalcScores events old ref ts = .ok out →
      out.scores.map (·.rank) =
        (List.range out.scores.length).map (fun i => some (1 + i)) ∧
      List.Sorted (fun a b => Recalc.scoreKeyLe a b = true) out.scores) := by
  constructor
  · intro s hnd
    have hrs : (Hist.rankSnap s).scores = s.scores.map (fun p => (p.1, p.2.map fun d =>
        match Hist.labIdx p.1 (List.insertionSort
          (fun a b => b.2.total_score ≤ a.2.total_score)
          (s.scores.filterMap fun p => p.2.map fun d => (p.1, d))) with
        | some idx => { d with rank := some (idx + 1) }
        | none => d)) := rfl
    set valid := s.scores.filterMap fun p => p.2.map fun d => (p.1, d) with hv
    set sorted := List.insertionSort (fun a b => b.2.total_score ≤ a.2.total_score) valid
      with hsdef
    have hperm : sorted.Perm valid := List.perm_insertionSort _ _
    have hvnd : (valid.map Prod.fst).Nodup := (valid_keys_sublist s.scores).nodup hnd
    have hsnd : (sorted.map Prod.fst).Nodup := ((hperm.map Prod.fst).nodup_iff).mpr hvnd
    have hmemvalid : ∀ p ∈ s.scores, ∀ d : Hist.LabScoreH, p.2 = some d →
        (p.1, d) ∈ valid := by
      intro p hp d hd
      rw [hv]
      exact List.mem_filterMap.mpr ⟨p, hp, by rw [hd]; rfl⟩
    have hOK : ∀ p ∈ s.scores, ∀ d : Hist.LabScoreH, p.2 = some d →
        ∃ i, Hist.labIdx p.1 sorted = some i := by
      intro p hp d hd
      apply labIdx_isSome_of_mem
      exact (hperm.map Prod.fst).mem_iff.mpr
        (List.mem_map_of_mem Prod.fst (hmemvalid p hp d hd))
    haveI : IsTotal (String × Hist.LabScoreH)
        (fun a b => b.2.total_score ≤ a.2.total_score) :=
      ⟨fun a b => le_total b.2.total_score a.2.total_score⟩
    haveI : IsTrans (String × Hist.LabScoreH)
        (fun a b => b.2.total_score ≤ a.2.total_score) :=
      ⟨fun _ _ _ hab hbc => le_trans hbc hab⟩
    have hsorted : List.Sorted (fun a b => b.2.total_score ≤ a.2.total_score) sorted :=
      List.sorted_insertionSort _ _
    constructor
    · rw [hrs, ranks_filterMap sorted s.scores hOK]
      have h3 : sorted.map (fun q => (Hist.labIdx q.1 sorted).getD 0 + 1) =
          (List.range sorted.length).map (fun i => i + 1) := by
        apply List.ext_get
        · simp
        · intro n h1 h2
          simp only [List.get_map]
          rw [labIdx_of_get sorted hsnd n (by simpa using h1)]
          simp [List.get_range]
      have h4 : sorted.length = (s.scores.filterMap fun p => p.2).length := by
        rw [hperm.length_eq, hv, valid_length_eq]
      refine ((hperm.map (fun q => (Hist.labIdx q.1 sorted).getD 0 + 1)).symm.trans ?_)
      rw [h3, h4]
    · intro pa hpa pb hpb da db ra rb hda hdb hra hrb hlt
      rw [hrs] at hpa hpb
      obtain ⟨p0, hp0, rfl⟩ := List.mem_map.mp hpa
      obtain ⟨q0, hq0, rfl⟩ := List.mem_map.mp hpb
      obtain ⟨d0, hd0, hda2⟩ := Option.map_eq_some'.mp hda
      obtain ⟨e0, he0, hdb2⟩ := Option.map_eq_some'.mp hdb
      obtain ⟨i, hi⟩ := hOK p0 hp0 d0 hd0
      obtain ⟨j, hj⟩ := hOK q0 hq0 e0 he0
      rw [hi] at hda2
      rw [hj] at hdb2
      subst hda2
      subst hdb2
      simp only [Option.some.injEq] at hra hrb
      obtain ⟨hilt, hikey⟩ := labIdx_spec sorted p0.1 i hi
      obtain ⟨hjlt, hjkey⟩ := labIdx_spec sorted q0.1 j hj
      have hgi : sorted.get ⟨i, hilt⟩ = (p0.1, d0) := by
        apply eq_of_mem_keys_nodup sorted hsnd _ _ (sorted.get_mem _ _)
        · exact hperm.mem_iff.mpr (hmemvalid p0 hp0 d0 hd0)
        · exact hikey
      have hgj : sorted.get ⟨j, hjlt⟩ = (q0.1, e0) := by
        apply eq_of_mem_keys_nodup sorted hsnd _ _ (sorted.get_mem _ _)
        · exact hperm.mem_iff.mpr (hmemvalid q0 hq0 e0 he0)
        · exact hjkey
      have hij : i < j := by omega
      have hrel := hsorted.rel_get_of_lt (a := ⟨i, hilt⟩) (b := ⟨j, hjlt⟩)
        (by exact Fin.mk_lt_mk.mpr hij)
      rw [hgi, hgj] at hrel
      exact hrel
  · intro events old ref ts out h
    unfold Recalc.recalcScores at h
    simp only [Bind.bind, Except.bind] at h
    cases hm : List.mapM (Recalc.scoreWithTrend old
        (Recalc.getEventsInWindow events ref Recalc.DECAY_WINDOW_DAYS)) Recalc.LABS with
    | error e => rw [hm] at h; simp at h
    | ok lts =>
      rw [hm] at h
      simp only [Pure.pure, Except.pure, Except.ok.injEq] at h
      subst h
      constructor
      · rw [assignRanks_map_rank, assignRanks_length]
      · haveI : IsTotal Recalc.LabScoreR (fun a b => Recalc.scoreKeyLe a b = true) :=
          ⟨scoreKeyLe_total⟩
        haveI : IsTrans Recalc.LabScoreR (fun a b => Recalc.scoreKeyLe a b = true) :=
          ⟨scoreKeyLe_trans⟩
        exact assignRanks_sorted _ 1 (List.sorted_insertionSort _ lts)

theorem C5_amended_ranking_witness :
    (((⟨⟨2024, 1, 31⟩, [("openai", some
        { total_score := 0, breakdown := [], events_count := 0,
          last_event_date := none, trend := none, rank := none }),
        ("anthropic", none)]⟩ : Hist.Snap).scores.map Prod.fst).Nodup) ∧
    ((((Hist.rankSnap ⟨⟨2024, 1, 31⟩, [("openai", some
          { total_score := 0, breakdown := [], events_count := 0,
            last_event_date := none, trend := none, rank := none }),
          ("anthropic", none)]⟩).scores.filterMap fun p => p.2.bind (·.rank)).Perm
        ((List.range ((⟨⟨2024, 1, 31⟩, [("openai", some
          { total_score := 0, breakdown := [], events_count := 0,
            last_event_date := none, trend := none, rank := none }),
          ("anthropic", none)]⟩ : Hist.Snap).scores.filterMap fun p => p.2).length).map
            fun i => i + 1)) ∧
      (∀ pa ∈ (Hist.rankSnap ⟨⟨2024, 1, 31⟩, [("openai", some
          { total_score := 0, breakdown := [], events_count := 0,
            last_event_date := none, trend := none, rank := none }),
          ("anthropic", none)]⟩).scores,
        ∀ pb ∈ (Hist.rankSnap ⟨⟨2024, 1, 31⟩, [("openai", some
          { total_score := 0, breakdown := [], events_count := 0,
            last_event_date := none, trend := none, rank := none }),
          ("anthropic", none)]⟩).scores,
        ∀ da db ra rb, pa.2 = some da → pb.2 = some db →
          da.rank = some ra → db.rank = some rb → ra < rb →
          db.total_score ≤ da.total_score)) :=
  ⟨by decide, C5_amended_ranking.1 ⟨⟨2024, 1, 31⟩, [("openai", some
      { total_score := 0, breakdown := [], events_count := 0,
        last_event_date := none, trend := none, rank := none }),
      ("anthropic", none)]⟩ (by decide)⟩
lemma strLe_trans (a b c : String) (h1 : strLe a b = true) (h2 : strLe b c = true) :
    strLe a c = true := by
  unfold strLe at h1 h2 ⊢
  simp only [Bool.not_eq_true'] at h1 h2 ⊢
  by_cases hca : strLt c a = true
  · by_cases hbc : strLt b c = true
    · have := strLt_trans _ _ _ hbc hca
      simp [this] at h1
    · have hcb : strLt b c = false := by simpa using hbc
      have : c = b := strLt_connex _ _ h2 hcb
      rw [this] at hca
      simp [hca] at h1
  · simpa using hca

lemma strLe_total_aux (a b : String) (h : strLe a b = false) : strLe b a = true := by
  unfold strLe at h ⊢
  have h2 : strLt b a = true := by
    cases hx : strLt b a
    · rw [hx] at h; cases h
    · rfl
  have h3 : strLt a b = false := charListLt_asymm _ _ h2
  rw [h3]
  rfl

lemma mem_setInsert (a i : String) (l : List String) :
    a ∈ setInsert i l ↔ a = i ∨ a ∈ l := by
  unfold setInsert
  by_cases hc : i ∈ l
  · simp only [List.elem_eq_mem, hc, decide_True, if_true]
    constructor
    · exact Or.inr
    · rintro (rfl | h)
      · exact hc
      · exact h
  · simp only [List.elem_eq_mem, hc, decide_False, Bool.false_eq_true, if_false,
      List.mem_cons]

lemma nodup_setInsert (i : String) (l : List String) (h : l.Nodup) :
    (setInsert i l).Nodup := by
  unfold setInsert
  by_cases hc : i ∈ l
  · simpa [List.elem_eq_mem, hc] using h
  · simp [List.elem_eq_mem, hc, List.nodup_cons, h]

lemma insertSortedStr_perm (a : String) : ∀ (l : List String),
    (insertSortedStr a l).Perm (a :: l) := by
  intro l
  induction l with
  | nil => exact List.Perm.refl _
  | cons b bs ih =>
    unfold insertSortedStr
    split
    · exact List.Perm.refl _
    · exact (List.Perm.cons b ih).trans (List.Perm.swap a b bs)

lemma sortStrs_perm : ∀ (l : List String), (sortStrs l).Perm l := by
  intro l
  induction l with
  | nil => exact List.Perm.refl _
  | cons a as ih =>
    unfold sortStrs at ih ⊢
    rw [List.foldr_cons]
    exact (insertSortedStr_perm a _).trans (ih.cons a)

lemma insertSortedStr_sorted (a : String) : ∀ (l : List String),
    List.Sorted (fun x y => strLe x y = true) l →
    List.Sorted (fun x y => strLe x y = true) (insertSortedStr a l) := by
  intro l
  induction l with
  | nil => intro _; exact List.sorted_singleton a
  | cons b bs ih =>
    intro hs
    rcases List.sorted_cons.mp hs with ⟨hb, hbs⟩
    unfold insertSortedStr
    split
    · rename_i hab
      refine List.sorted_cons.mpr ⟨?_, hs⟩
      intro x hx
      rcases List.mem_cons.mp hx with rfl | hx2
      · exact hab
      · exact strLe_trans _ _ _ hab (hb x hx2)
    · rename_i hab
      have hba : strLe b a = true := strLe_total_aux _ _ (by simpa using hab)
      refine List.sorted_cons.mpr ⟨?_, ih hbs⟩
      intro x hx
      have := (insertSortedStr_perm a bs).mem_iff.mp hx
      rcases List.mem_cons.mp this with rfl | hx2
      · exact hba
      · exact hb x hx2

lemma sortStrs_sorted : ∀ (l : List String),
    List.Sorted (fun x y => strLe x y = true) (sortStrs l) := by
  intro l
  induction l with
  | nil => exact List.sorted_nil
  | cons a as ih =>
    unfold sortStrs at ih ⊢
    rw [List.foldr_cons]
    exact insertSortedStr_sorted a _ ih

/-- On all-valid-dated events the historical window is the evident filter. -/
lemma hist_window_ok (events : List Event) (r : Date) (lab : String)
    (hv : ∀ e ∈ events, ∃ d, e.date = EDate.valid d) :
    Hist.getEventsInWindow events r lab = .ok (events.filter fun e =>
      e.lab == some lab && (match e.date with
        | EDate.valid d => decide (toDays r - Hist.DECAY_WINDOW_DAYS ≤ toDays d ∧
            toDays d ≤ toDays r)
        | _ => false)) := by
  induction events with
  | nil => rfl
  | cons e rest ih =>
    have ih2 := ih fun e2 he2 => hv e2 (List.mem_cons_of_mem e he2)
    obtain ⟨d, hd⟩ := hv e (List.mem_cons_self e rest)
    by_cases hlab : (e.lab == some lab) = true
    · have hstep : Hist.getEventsInWindow (e :: rest) r lab =
          (Hist.getEventsInWindow rest r lab).map fun tail =>
            if toDays r - Hist.DECAY_WINDOW_DAYS ≤ toDays d ∧ toDays d ≤ toDays r
            then e :: tail else tail := by
        simp only [Hist.getEventsInWindow]
        rw [hd]
        simp only [hlab, if_true]
      rw [hstep, ih2, except_map_ok, List.filter_cons]
      have hpred : (e.lab == some lab && match e.date with
          | EDate.valid d => decide (toDays r - Hist.DECAY_WINDOW_DAYS ≤ toDays d ∧
              toDays d ≤ toDays r)
          | _ => false) =
          decide (toDays r - Hist.DECAY_WINDOW_DAYS ≤ toDays d ∧ toDays d ≤ toDays r) := by
        rw [hd, hlab]
        rfl
      rw [hpred]
      by_cases hc : toDays r - Hist.DECAY_WINDOW_DAYS ≤ toDays d ∧ toDays d ≤ toDays r
      · rw [if_pos hc, if_pos (decide_eq_true hc)]
      · rw [if_neg hc, if_neg (fun h => hc (of_decide_eq_true h))]
    · have hlab' : (e.lab == some lab) = false := by simpa using hlab
      have hstep : Hist.getEventsInWindow (e :: rest) r lab =
          Hist.getEventsInWindow rest r lab := by
        simp only [Hist.getEventsInWindow]
        simp only [hlab', Bool.false_eq_true, if_false]
      rw [hstep, ih2, List.filter_cons]
      have hpred : (e.lab == some lab && match e.date with
          | EDate.valid d => decide (toDays r - Hist.DECAY_WINDOW_DAYS ≤ toDays d ∧
              toDays d ≤ toDays r)
          | _ => false) = false := by
        rw [hlab']
        rfl
      rw [hpred]
      simp

/-- The incremental window at a midnight reference, restricted to one lab,
is the historical window filter of that lab. -/
lemma windows_agree (events : List Event) (r : Date) (lab : String) :
    (Recalc.getEventsInWindow events ⟨86400 * toDays r⟩ Recalc.DECAY_WINDOW_DAYS).filter
        (fun e => e.lab == some lab) =
      events.filter (fun e => e.lab == some lab && (match e.date with
        | EDate.valid d => decide (toDays r - Hist.DECAY_WINDOW_DAYS ≤ toDays d ∧
            toDays d ≤ toDays r)
        | _ => false)) := by
  unfold Recalc.getEventsInWindow
  rw [List.filter_filter]
  apply List.filter_congr
  intro e _
  cases hd : e.date with
  | missing => simp
  | malformed s => simp
  | valid d =>
    have hsecs : (⟨86400 * toDays r⟩ : DateTime).secs = 86400 * toDays r := rfl
    have hR : Recalc.DECAY_WINDOW_DAYS = (180 : Int) := rfl
    have hH : Hist.DECAY_WINDOW_DAYS = (180 : Int) := rfl
    simp only [hsecs, hR, hH]
    congr 1
    rw [decide_eq_decide]
    omega

lemma mem_guardFold (P : String → Bool) : ∀ (items : List String) (acc : List String)
    (id : String),
    id ∈ items.foldl (fun a i => if P i then setInsert i a else a) acc ↔
      id ∈ acc ∨ (id ∈ items ∧ P id = true) := by
  intro items
  induction items with
  | nil => intro acc id; simp
  | cons i rest ih =>
    intro acc id
    rw [List.foldl_cons]
    by_cases hp : P i = true
    · rw [if_pos hp, ih (setInsert i acc) id, mem_setInsert]
      constructor
      · rintro ((rfl | h) | h)
        · exact Or.inr ⟨List.mem_cons_self _ _, hp⟩
        · exact Or.inl h
        · exact Or.inr ⟨List.mem_cons_of_mem _ h.1, h.2⟩
      · rintro (h | ⟨hm, hP⟩)
        · exact Or.inl (Or.inr h)
        · rcases List.mem_cons.mp hm with rfl | h2
          · exact Or.inl (Or.inl rfl)
          · exact Or.inr ⟨h2, hP⟩
    · have hp' : P i = false := by simpa using hp
      rw [if_neg hp, ih acc id]
      constructor
      · rintro (h | ⟨hm, hP⟩)
        · exact Or.inl h
        · exact Or.inr ⟨List.mem_cons_of_mem _ hm, hP⟩
      · rintro (h | ⟨hm, hP⟩)
        · exact Or.inl h
        · rcases List.mem_cons.mp hm with rfl | h2
          · rw [hP] at hp'; cases hp'
          · exact Or.inr ⟨h2, hP⟩

lemma mem_eventsTrigger (P : String → Bool) (D : String) : ∀ (W : List Event)
    (acc : List String) (id : String),
    id ∈ W.foldl (fun acc e => if e.dimension == some D then
        e.checklist_items_affected.foldl (fun a i => if P i then setInsert i a else a) acc
      else acc) acc ↔
      id ∈ acc ∨ ∃ e ∈ W, e.dimension = some D ∧ id ∈ e.checklist_items_affected ∧
        P id = true := by
  intro W
  induction W with
  | nil => intro acc id; simp
  | cons e rest ih =>
    intro acc id
    rw [List.foldl_cons]
    by_cases hdim : (e.dimension == some D) = true
    · rw [if_pos hdim, ih _ id, mem_guardFold]
      have hD : e.dimension = some D := eq_of_beq hdim
      constructor
      · rintro ((h | ⟨hm, hP⟩) | ⟨e2, he2, h2⟩)
        · exact Or.inl h
        · exact Or.inr ⟨e, List.mem_cons_self e rest, hD, hm, hP⟩
        · exact Or.inr ⟨e2, List.mem_cons_of_mem e he2, h2⟩
      · rintro (h | ⟨e2, he2, hd2, hm2, hP2⟩)
        · exact Or.inl (Or.inl h)
        · rcases List.mem_cons.mp he2 with rfl | he3
          · exact Or.inl (Or.inr ⟨hm2, hP2⟩)
          · exact Or.inr ⟨e2, he3, hd2, hm2, hP2⟩
    · rw [if_neg hdim, ih acc id]
      constructor
      · rintro (h | ⟨e2, he2, h2⟩)
        · exact Or.inl h
        · exact Or.inr ⟨e2, List.mem_cons_of_mem e he2, h2⟩
      · rintro (h | ⟨e2, he2, hd2, hm2, hP2⟩)
        · exact Or.inl h
        · rcases List.mem_cons.mp he2 with rfl | he3
          · exact absurd (by rw [hd2]; exact beq_self_eq_true _ : (e2.dimension == some D) = true) hdim
          · exact Or.inr ⟨e2, he3, hd2, hm2, hP2⟩

lemma mem_itemsIns : ∀ (items : List String) (acc : List String) (id : String),
    id ∈ items.foldl (fun a i => setInsert i a) acc ↔ id ∈ acc ∨ id ∈ items := by
  intro items
  induction items with
  | nil => intro acc id; simp
  | cons i rest ih =>
    intro acc id
    rw [List.foldl_cons, ih (setInsert i acc) id, mem_setInsert]
    constructor
    · rintro ((rfl | h) | h)
      · exact Or.inr (List.mem_cons_self _ _)
      · exact Or.inl h
      · exact Or.inr (List.mem_cons_of_mem _ h)
    · rintro (h | hm)
      · exact Or.inl (Or.inr h)
      · rcases List.mem_cons.mp hm with rfl | h2
        · exact Or.inl (Or.inl rfl)
        · exact Or.inr h2

lemma mem_eventsIns : ∀ (W : List Event) (acc : List String) (id : String),
    id ∈ W.foldl (fun acc e => e.checklist_items_affected.foldl
      (fun a i => setInsert i a) acc) acc ↔
      id ∈ acc ∨ ∃ e ∈ W, id ∈ e.checklist_items_affected := by
  intro W
  induction W with
  | nil => intro acc id; simp
  | cons e rest ih =>
    intro acc id
    rw [List.foldl_cons, ih _ id, mem_itemsIns]
    constructor
    · rintro ((h | h) | ⟨e2, he2, h2⟩)
      · exact Or.inl h
      · exact Or.inr ⟨e, List.mem_cons_self e rest, h⟩
      · exact Or.inr ⟨e2, List.mem_cons_of_mem e he2, h2⟩
    · rintro (h | ⟨e2, he2, h2⟩)
      · exact Or.inl (Or.inl h)
      · rcases List.mem_cons.mp he2 with rfl | he3
        · exact Or.inl (Or.inr h2)
        · exact Or.inr ⟨e2, he3, h2⟩

lemma nodup_guardFold (P : String → Bool) : ∀ (items : List String) (acc : List String),
    acc.Nodup → (items.foldl (fun a i => if P i then setInsert i a else a) acc).Nodup := by
  intro items
  induction items with
  | nil => intro acc h; exact h
  | cons i rest ih =>
    intro acc h
    rw [List.foldl_cons]
    by_cases hp : P i = true
    · rw [if_pos hp]
      exact ih _ (nodup_setInsert i acc h)
    · rw [if_neg hp]
      exact ih _ h

lemma nodup_eventsTrigger (P : String → Bool) (D : String) : ∀ (W : List Event)
    (acc : List String), acc.Nodup →
    (W.foldl (fun acc e => if e.dimension == some D then
        e.checklist_items_affected.foldl (fun a i => if P i then setInsert i a else a) acc
      else acc) acc).Nodup := by
  intro W
  induction W with
  | nil => intro acc h; exact h
  | cons e rest ih =>
    intro acc h
    rw [List.foldl_cons]
    by_cases hdim : (e.dimension == some D) = true
    · rw [if_pos hdim]
      exact ih _ (nodup_guardFold P _ acc h)
    · rw [if_neg hdim]
      exact ih _ h

lemma strLt_ne (a b : String) (h : strLt a b = true) : a ≠ b := by
  intro heq
  subst heq
  unfold strLt at h
  rw [charListLt_irrefl] at h
  cases h

lemma strLe_antisymm (a b : String) (h1 : strLe a b = true) (h2 : strLe b a = true) :
    a = b := by
  unfold strLe at h1 h2
  simp only [Bool.not_eq_true'] at h1 h2
  exact strLt_connex a b h2 h1

/-- Two sorted duplicate-free string lists with the same members are equal. -/
lemma sorted_nodup_ext (l1 l2 : List String)
    (hs1 : List.Sorted (fun x y => strLe x y = true) l1)
    (hs2 : List.Sorted (fun x y => strLe x y = true) l2)
    (hn1 : l1.Nodup) (hn2 : l2.Nodup)
    (hmem : ∀ x, x ∈ l1 ↔ x ∈ l2) : l1 = l2 := by
  haveI : IsAntisymm String (fun x y => strLe x y = true) :=
    ⟨fun a b h1 h2 => strLe_antisymm a b h1 h2⟩
  exact List.eq_of_perm_of_sorted ((List.perm_ext_iff_of_nodup hn1 hn2).mpr hmem) hs1 hs2

lemma find?_pair_isSome {α : Type} (p : α → Bool) (a b : α) :
    (List.find? p [a, b]).isSome = (p a || p b) := by
  cases hpa : p a
  · cases hpb : p b
    · simp [List.find?, hpa, hpb]
    · simp [List.find?, hpa, hpb]
  · simp [List.find?, hpa]

/-- A sum of per-item values that are all `1` is the list length. -/
lemma sum_map_ones (l : List String) (f : String → Int) (hf : ∀ i ∈ l, f i = 1) :
    (l.map f).sum = (l.length : Int) := by
  induction l with
  | nil => rfl
  | cons a as ih =>
    rw [List.map_cons, List.sum_cons, hf a (List.mem_cons_self a as),
      ih (fun i hi => hf i (List.mem_cons_of_mem a hi)), List.length_cons]
    push_cast
    ring

lemma lookup_mem {β : Type} : ∀ (l : List (String × β)) (id : String) (info : β),
    l.lookup id = some info → (id, info) ∈ l := by
  intro l
  induction l with
  | nil => intro id info h; cases h
  | cons p rest ih =>
    intro id info h
    obtain ⟨k, b⟩ := p
    simp only [List.lookup] at h
    split at h
    · rename_i hbeq
      injection h with h2
      subst h2
      have hk : id = k := eq_of_beq hbeq
      rw [hk]
      exact List.mem_cons_self _ _
    · exact List.mem_cons_of_mem _ (ih id info h)

/-- A catalog lookup pins the item id to the two ids of its dimension. -/
lemma lookup_dim_pair (id : String) (info : Recalc.CLInfo)
    (h : Recalc.CHECKLIST_ITEMS.lookup id = some info) :
    (info.dimension = "compute_chips" → id = "A1" ∨ id = "A2") ∧
    (info.dimension = "cloud" → id = "B1" ∨ id = "B2") ∧
    (info.dimension = "policy" → id = "C1" ∨ id = "C2") ∧
    (info.dimension = "demand" → id = "D1" ∨ id = "D2") ∧
    (info.dimension = "resilience" → id = "E1" ∨ id = "E2") := by
  have hall : ∀ p ∈ Recalc.CHECKLIST_ITEMS,
      (p.2.dimension = "compute_chips" → p.1 = "A1" ∨ p.1 = "A2") ∧
      (p.2.dimension = "cloud" → p.1 = "B1" ∨ p.1 = "B2") ∧
      (p.2.dimension = "policy" → p.1 = "C1" ∨ p.1 = "C2") ∧
      (p.2.dimension = "demand" → p.1 = "D1" ∨ p.1 = "D2") ∧
      (p.2.dimension = "resilience" → p.1 = "E1" ∨ p.1 = "E2") := by decide
  exact hall (id, info) (lookup_mem _ _ _ h)

/-- Python `max` over a nonempty list of present date strings folds `strMax`. -/
lemma pyMax_all_some : ∀ (ts : List String) (u : String),
    pyMax (some u :: ts.map some) = .ok (some (ts.foldl strMax u)) := by
  intro ts
  induction ts with
  | nil => intro u; rfl
  | cons t ts ih =>
    intro u
    rw [List.map_cons]
    show List.foldlM
        (fun a b =>
          match a, b with
          | some s, some t => Except.ok (some (strMax s t))
          | _, _ => Except.error ())
        (some u) (some t :: List.map some ts) =
      Except.ok (some (List.foldl strMax u (t :: ts)))
    rw [List.foldlM_cons]
    exact ih (strMax u t)

/-- On all-valid events `mapM dateStrict` returns the rendered date strings. -/
lemma mapM_dateStrict_eq : ∀ (l : List Event),
    (∀ e ∈ l, ∃ d, e.date = EDate.valid d) →
    List.mapM (fun e => Recalc.dateStrict e.date) l = .ok (l.map dateStrOf) := by
  intro l
  induction l with
  | nil => intro _; rfl
  | cons a rest ih =>
    intro hv
    obtain ⟨d, hd⟩ := hv a (List.mem_cons_self a rest)
    have hm := ih (fun e he => hv e (List.mem_cons_of_mem a he))
    rw [List.mapM_cons]
    have hstep : Recalc.dateStrict a.date = Except.ok (fmtDate d) := by
      rw [hd]; rfl
    have hstr : dateStrOf a = fmtDate d := by
      unfold dateStrOf
      rw [hd]
    simp only [Bind.bind, Except.bind, Pure.pure, Except.pure, hstep, hm,
      List.map_cons, hstr]

/-- Core of the per-dimension agreement: with a trigger predicate `P`
matching exactly the two catalog ids `x < y` of dimension `D`, a per-item
value `V` that is `1` on them, and events whose items carry `P` exactly on
the `D`-dimension events, the historical dimension record equals the
incremental one. -/
lemma dims_agree_gen (W : List Event) (D x y : String) (P : String → Bool)
    (V : String → Int)
    (hxy : strLt x y = true)
    (hP : ∀ id, P id = true ↔ (id = x ∨ id = y))
    (hV : ∀ id, (id = x ∨ id = y) → V id = 1)
    (hres : (D == "resilience") = true ∨
      ∀ id, (id = x ∨ id = y) → Recalc.pointsOf id = 1)
    (hdim : ∀ e ∈ W, ∀ i ∈ e.checklist_items_affected,
      (P i = true ↔ e.dimension = some D)) :
    ({ score := min ((List.map V (List.foldl (fun acc e =>
          if e.dimension == some D then
            List.foldl (fun a i => if P i then setInsert i a else a) acc
              e.checklist_items_affected
          else acc) [] W)).sum) 2,
       max := 2,
       items_triggered := sortStrs (List.foldl (fun acc e =>
          if e.dimension == some D then
            List.foldl (fun a i => if P i then setInsert i a else a) acc
              e.checklist_items_affected
          else acc) [] W) } : DimScore) =
    { score := if (D == "resilience") = true
        then ((List.filter (fun i => (List.foldl (fun acc e =>
          List.foldl (fun a i => setInsert i a) acc e.checklist_items_affected)
          [] W).contains i) [x, y]).length : Int)
        else (List.map Recalc.pointsOf (List.filter (fun i =>
          (List.foldl (fun acc e => List.foldl (fun a i => setInsert i a) acc
            e.checklist_items_affected) [] W).contains i) [x, y])).sum,
      max := 2,
      items_triggered := List.filter (fun i => (List.foldl (fun acc e =>
          List.foldl (fun a i => setInsert i a) acc e.checklist_items_affected)
          [] W).contains i) [x, y] } := by
  have hxny : x ≠ y := strLt_ne x y hxy
  set T := List.foldl (fun acc e => List.foldl (fun a i => setInsert i a) acc
    e.checklist_items_affected) [] W with hTdef
  set IT := List.foldl (fun acc e =>
    if e.dimension == some D then
      List.foldl (fun a i => if P i then setInsert i a else a) acc
        e.checklist_items_affected
    else acc) [] W with hITdef
  set RD := List.filter (fun i => T.contains i) [x, y] with hRDdef
  have hmemT : ∀ id, id ∈ T ↔ ∃ e ∈ W, id ∈ e.checklist_items_affected := by
    intro id
    rw [hTdef, mem_eventsIns]
    simp only [List.not_mem_nil, false_or]
  have hmemIT : ∀ id, id ∈ IT ↔ ∃ e ∈ W, e.dimension = some D ∧
      id ∈ e.checklist_items_affected ∧ P id = true := by
    intro id
    rw [hITdef, mem_eventsTrigger]
    simp only [List.not_mem_nil, false_or]
  have hcont : ∀ id, (T.contains id = true) ↔ id ∈ T := by
    intro id
    show List.elem id T = true ↔ id ∈ T
    rw [List.elem_eq_mem]
    exact ⟨of_decide_eq_true, decide_eq_true⟩
  have hmemRD : ∀ id, id ∈ RD ↔ (id = x ∨ id = y) ∧ id ∈ T := by
    intro id
    rw [hRDdef, List.mem_filter]
    constructor
    · rintro ⟨h1, h2⟩
      refine ⟨?_, (hcont id).mp h2⟩
      simpa using h1
    · rintro ⟨h1, h2⟩
      refine ⟨?_, (hcont id).mpr h2⟩
      simpa using h1
  have hiff : ∀ id, id ∈ IT ↔ id ∈ RD := by
    intro id
    rw [hmemIT id, hmemRD id]
    constructor
    · rintro ⟨e, he, hd, hi, hp⟩
      exact ⟨(hP id).mp hp, (hmemT id).mpr ⟨e, he, hi⟩⟩
    · rintro ⟨hid, hT⟩
      obtain ⟨e, he, hi⟩ := (hmemT id).mp hT
      have hp : P id = true := (hP id).mpr hid
      exact ⟨e, he, (hdim e he id hi).mp hp, hi, hp⟩
  have hnIT : IT.Nodup := by
    rw [hITdef]
    exact nodup_eventsTrigger P D W [] List.nodup_nil
  have hnxy : ([x, y] : List String).Nodup := by simp [hxny]
  have hnRD : RD.Nodup := by
    rw [hRDdef]
    exact hnxy.filter _
  have hsRD : List.Sorted (fun a b => strLe a b = true) RD := by
    rw [hRDdef]
    refine List.Sorted.filter _ ?_
    refine List.sorted_cons.mpr ⟨?_, List.sorted_singleton y⟩
    intro b hb
    rw [List.mem_singleton] at hb
    rw [hb]
    show (!(strLt y x)) = true
    rw [show strLt y x = charListLt y.data x.data from rfl, charListLt_asymm _ _ hxy]
    rfl
  have hpermIT : IT.Perm RD := (List.perm_ext_iff_of_nodup hnIT hnRD).mpr hiff
  have hperm_s : (sortStrs IT).Perm IT := sortStrs_perm IT
  have hn_s : (sortStrs IT).Nodup := (hperm_s.nodup_iff).mpr hnIT
  have hs_s : List.Sorted (fun a b => strLe a b = true) (sortStrs IT) := sortStrs_sorted IT
  have hitems : sortStrs IT = RD :=
    sorted_nodup_ext _ _ hs_s hsRD hn_s hnRD
      (fun id => (hperm_s.mem_iff).trans (hiff id))
  have hVmem : ∀ id ∈ IT, V id = 1 := by
    intro id hid
    obtain ⟨e, he, hd, hi, hp⟩ := (hmemIT id).mp hid
    exact hV id ((hP id).mp hp)
  have hS : (List.map V IT).sum = (IT.length : Int) := sum_map_ones IT V hVmem
  have hlen : IT.length = RD.length := hpermIT.length_eq
  have hlen2 : RD.length ≤ 2 := by
    rw [hRDdef]
    exact List.length_filter_le _ _
  have hscoreR : (if (D == "resilience") = true then (RD.length : Int)
      else (List.map Recalc.pointsOf RD).sum) = (RD.length : Int) := by
    rcases hres with h | h
    · rw [if_pos h]
    · by_cases hDres : (D == "resilience") = true
      · rw [if_pos hDres]
      · rw [if_neg hDres]
        refine sum_map_ones RD Recalc.pointsOf ?_
        intro id hid
        exact h id ((hmemRD id).mp hid).1
  simp only [DimScore.mk.injEq]
  refine ⟨?_, trivial, hitems⟩
  rw [hS, hlen, hscoreR]
  omega

/-- Under catalog agreement and dimension-consistent item attribution, one
dimension of the historical breakdown equals the incremental one computed
from the plain triggered-item fold. -/
lemma dims_agree (W : List Event) (D x y : String) (px py : Int)
    (hfil : builtinChecklist.checklist_items.filter
      (fun it => it.dimension == some D) =
      [{ id := some x, dimension := some D, points := some px },
       { id := some y, dimension := some D, points := some py }])
    (hfr : (Recalc.CHECKLIST_ITEMS.filter fun p => p.2.dimension == D).map (·.1) = [x, y])
    (hlx : Recalc.CHECKLIST_ITEMS.lookup x = some ⟨D, px⟩)
    (hly : Recalc.CHECKLIST_ITEMS.lookup y = some ⟨D, py⟩)
    (habsx : |px| = 1) (habsy : |py| = 1)
    (hxy : strLt x y = true)
    (hscore : (D == "resilience") = true ∨ (px = 1 ∧ py = 1))
    (hlook : ∀ id info, Recalc.CHECKLIST_ITEMS.lookup id = some info →
      info.dimension = D → id = x ∨ id = y)
    (hcons : ∀ e ∈ W, ∀ i ∈ e.checklist_items_affected, ∃ info,
      Recalc.CHECKLIST_ITEMS.lookup i = some info ∧ e.dimension = some info.dimension) :
    Hist.calculateDimensionScore builtinChecklist W D =
      Recalc.dimScoreOf (W.foldl (fun acc e =>
        e.checklist_items_affected.foldl (fun a i => setInsert i a) acc) []) D := by
  have hxny : x ≠ y := strLt_ne x y hxy
  have hP : ∀ id : String, ((List.find? (fun it => it.id == some id)
      ([{ id := some x, dimension := some D, points := some px },
        { id := some y, dimension := some D, points := some py }] :
        List ChecklistItem)).isSome = true) ↔
      (id = x ∨ id = y) := by
    intro id
    rw [find?_pair_isSome]
    simp only [Bool.or_eq_true, beq_iff_eq, Option.some.injEq]
    constructor
    · exact fun h => h.imp Eq.symm Eq.symm
    · exact fun h => h.imp Eq.symm Eq.symm
  have hV : ∀ id : String, (id = x ∨ id = y) →
      (match List.find? (fun it => it.id == some id)
        ([{ id := some x, dimension := some D, points := some px },
          { id := some y, dimension := some D, points := some py }] :
          List ChecklistItem) with
       | some it => |it.points.getD 1|
       | none => 0) = 1 := by
    rintro id (rfl | rfl)
    · have hfind : List.find? (fun it => it.id == some id)
          ([{ id := some id, dimension := some D, points := some px },
            { id := some y, dimension := some D, points := some py }] :
            List ChecklistItem) =
          some { id := some id, dimension := some D, points := some px } :=
        List.find?_cons_of_pos _ (by simp)
      rw [hfind]
      simpa using habsx
    · have hfind : List.find? (fun it => it.id == some id)
          ([{ id := some x, dimension := some D, points := some px },
            { id := some id, dimension := some D, points := some py }] :
            List ChecklistItem) =
          some { id := some id, dimension := some D, points := some py } := by
        rw [List.find?_cons_of_neg _ (by simp [hxny])]
        exact List.find?_cons_of_pos _ (by simp)
      rw [hfind]
      simpa using habsy
  have hresG : (D == "resilience") = true ∨
      ∀ id, (id = x ∨ id = y) → Recalc.pointsOf id = 1 := by
    rcases hscore with h | ⟨h1, h2⟩
    · exact Or.inl h
    · refine Or.inr ?_
      rintro id (rfl | rfl)
      · unfold Recalc.pointsOf
        rw [hlx]
        simpa using h1
      · unfold Recalc.pointsOf
        rw [hly]
        simpa using h2
  have hdim : ∀ e ∈ W, ∀ i ∈ e.checklist_items_affected,
      (((List.find? (fun it => it.id == some i)
        ([{ id := some x, dimension := some D, points := some px },
          { id := some y, dimension := some D, points := some py }] :
          List ChecklistItem)).isSome = true) ↔
        e.dimension = some D) := by
    intro e he i hi
    obtain ⟨info, hlk, hd⟩ := hcons e he i hi
    rw [hP i]
    constructor
    · rintro (rfl | rfl)
      · rw [hlx] at hlk
        injection hlk with h2
        rw [hd, ← h2]
      · rw [hly] at hlk
        injection hlk with h2
        rw [hd, ← h2]
    · intro hD
      refine hlook i info hlk ?_
      rw [hd] at hD
      exact Option.some.inj hD
  simp only [Hist.calculateDimensionScore, Recalc.dimScoreOf]
  rw [hfil, hfr]
  exact dims_agree_gen W D x y
    (fun itemId => (List.find? (fun it => it.id == some itemId)
      ([{ id := some x, dimension := some D, points := some px },
        { id := some y, dimension := some D, points := some py }] :
        List ChecklistItem)).isSome)
    (fun itemId => match List.find? (fun it => it.id == some itemId)
      ([{ id := some x, dimension := some D, points := some px },
        { id := some y, dimension := some D, points := some py }] :
        List ChecklistItem) with
      | some it => |it.points.getD 1|
      | none => 0)
    hxy hP hV hresG hdim

lemma dims_agree_cc (W : List Event)
    (hcons : ∀ e ∈ W, ∀ i ∈ e.checklist_items_affected, ∃ info,
      Recalc.CHECKLIST_ITEMS.lookup i = some info ∧ e.dimension = some info.dimension) :
    Hist.calculateDimensionScore builtinChecklist W "compute_chips" =
      Recalc.dimScoreOf (W.foldl (fun acc e =>
        e.checklist_items_affected.foldl (fun a i => setInsert i a) acc) [])
        "compute_chips" :=
  dims_agree W "compute_chips" "A1" "A2" 1 1 (by decide) (by decide) (by decide)
    (by decide) (by decide) (by decide) (by decide) (Or.inr ⟨rfl, rfl⟩)
    (fun id info h hd => (lookup_dim_pair id info h).1 hd) hcons

lemma dims_agree_cloud (W : List Event)
    (hcons : ∀ e ∈ W, ∀ i ∈ e.checklist_items_affected, ∃ info,
      Recalc.CHECKLIST_ITEMS.lookup i = some info ∧ e.dimension = some info.dimension) :
    Hist.calculateDimensionScore builtinChecklist W "cloud" =
      Recalc.dimScoreOf (W.foldl (fun acc e =>
        e.checklist_items_affected.foldl (fun a i => setInsert i a) acc) []) "cloud" :=
  dims_agree W "cloud" "B1" "B2" 1 1 (by decide) (by decide) (by decide)
    (by decide) (by decide) (by decide) (by decide) (Or.inr ⟨rfl, rfl⟩)
    (fun id info h hd => (lookup_dim_pair id info h).2.1 hd) hcons

lemma dims_agree_policy (W : List Event)
    (hcons : ∀ e ∈ W, ∀ i ∈ e.checklist_items_affected, ∃ info,
      Recalc.CHECKLIST_ITEMS.lookup i = some info ∧ e.dimension = some info.dimension) :
    Hist.calculateDimensionScore builtinChecklist W "policy" =
      Recalc.dimScoreOf (W.foldl (fun acc e =>
        e.checklist_items_affected.foldl (fun a i => setInsert i a) acc) []) "policy" :=
  dims_agree W "policy" "C1" "C2" 1 1 (by decide) (by decide) (by decide)
    (by decide) (by decide) (by decide) (by decide) (Or.inr ⟨rfl, rfl⟩)
    (fun id info h hd => (lookup_dim_pair id info h).2.2.1 hd) hcons

lemma dims_agree_demand (W : List Event)
    (hcons : ∀ e ∈ W, ∀ i ∈ e.checklist_items_affected, ∃ info,
      Recalc.CHECKLIST_ITEMS.lookup i = some info ∧ e.dimension = some info.dimension) :
    Hist.calculateDimensionScore builtinChecklist W "demand" =
      Recalc.dimScoreOf (W.foldl (fun acc e =>
        e.checklist_items_affected.foldl (fun a i => setInsert i a) acc) []) "demand" :=
  dims_agree W "demand" "D1" "D2" 1 1 (by decide) (by decide) (by decide)
    (by decide) (by decide) (by decide) (by decide) (Or.inr ⟨rfl, rfl⟩)
    (fun id info h hd => (lookup_dim_pair id info h).2.2.2.1 hd) hcons

lemma dims_agree_res (W : List Event)
    (hcons : ∀ e ∈ W, ∀ i ∈ e.checklist_items_affected, ∃ info,
      Recalc.CHECKLIST_ITEMS.lookup i = some info ∧ e.dimension = some info.dimension) :
    Hist.calculateDimensionScore builtinChecklist W "resilience" =
      Recalc.dimScoreOf (W.foldl (fun acc e =>
        e.checklist_items_affected.foldl (fun a i => setInsert i a) acc) [])
        "resilience" :=
  dims_agree W "resilience" "E1" "E2" (-1) (-1) (by decide) (by decide) (by decide)
    (by decide) (by decide) (by decide) (by decide) (Or.inl rfl)
    (fun id info h hd => (lookup_dim_pair id info h).2.2.2.2 hd) hcons

/-- Core of the per-lab refinement: once the two window computations have
produced the same event list `W`, the two per-lab scorers agree on every
reported field except the trend. -/
lemma labs_agree_core (events : List Event) (r : Date) (lab : String) (W : List Event)
    (hw : Hist.getEventsInWindow events r lab = .ok W)
    (hw2 : (Recalc.getEventsInWindow events ⟨86400 * toDays r⟩
      Recalc.DECAY_WINDOW_DAYS).filter (fun e => e.lab == some lab) = W)
    (hWv : ∀ e ∈ W, ∃ d, e.date = EDate.valid d)
    (hWcons : ∀ e ∈ W, ∀ i ∈ e.checklist_items_affected, ∃ info,
      Recalc.CHECKLIST_ITEMS.lookup i = some info ∧ e.dimension = some info.dimension)
    (hfound : (Hist.LAB_FOUNDING_DATES lab).any (fun f => strLt (fmtDate r) f) = false) :
    ∃ sH sR,
      Hist.calculateLabScore builtinChecklist events r lab = .ok (some sH) ∧
      Recalc.calculateLabScore lab (Recalc.getEventsInWindow events
        ⟨86400 * toDays r⟩ Recalc.DECAY_WINDOW_DAYS) = .ok sR ∧
      sH.total_score = sR.total_score ∧ sH.breakdown = sR.breakdown ∧
      sH.events_count = sR.events_count ∧ sH.last_event_date = sR.last_event_date := by
  have hcc := dims_agree_cc W hWcons
  have hcl := dims_agree_cloud W hWcons
  have hpo := dims_agree_policy W hWcons
  have hde := dims_agree_demand W hWcons
  have hre := dims_agree_res W hWcons
  cases W with
  | nil =>
    simp only [Hist.calculateLabScore, hfound, Bool.false_eq_true, if_false,
      Recalc.calculateLabScore, hw2, Bind.bind, Except.bind, hw, List.isEmpty_nil,
      if_true, Pure.pure, Except.pure]
    refine ⟨_, _, rfl, rfl, ?_, ?_, rfl, rfl⟩
    · rw [hcc, hcl, hpo, hde, hre]
    · simp only [Hist.DIMENSIONS, Recalc.DIMENSIONS, List.map_cons, List.map_nil]
      rw [hcc, hcl, hpo, hde, hre]
  | cons w ws =>
    obtain ⟨d, hd⟩ := hWv w (List.mem_cons_self w ws)
    have hmap : (w :: ws).map (fun e => dateKeyOf e.date) =
        some (dateStrOf w) :: (ws.map dateStrOf).map some := by
      rw [List.map_cons]
      congr 1
      · rw [hd]
        unfold dateStrOf
        rw [hd]
        rfl
      · rw [List.map_map]
        refine List.map_congr_left ?_
        intro e he
        obtain ⟨d2, hd2⟩ := hWv e (List.mem_cons_of_mem w he)
        simp only [Function.comp_apply]
        rw [hd2]
        unfold dateStrOf
        rw [hd2]
        rfl
    have hpy : pyMax ((w :: ws).map fun e => dateKeyOf e.date) =
        .ok (some ((ws.map dateStrOf).foldl strMax (dateStrOf w))) := by
      rw [hmap]
      exact pyMax_all_some _ _
    have hmm : List.mapM (fun e => Recalc.dateStrict e.date) (w :: ws) =
        .ok (dateStrOf w :: ws.map dateStrOf) :=
      mapM_dateStrict_eq (w :: ws) hWv
    simp only [Hist.calculateLabScore, hfound, Bool.false_eq_true, if_false,
      Recalc.calculateLabScore, hw2, Bind.bind, Except.bind, hw, List.isEmpty_cons,
      if_false, hpy, hmm, Pure.pure, Except.pure]
    refine ⟨_, _, rfl, rfl, ?_, ?_, rfl, rfl⟩
    · rw [hcc, hcl, hpo, hde, hre]
    · simp only [Hist.DIMENSIONS, Recalc.DIMENSIONS, List.map_cons, List.map_nil]
      rw [hcc, hcl, hpo, hde, hre]

/-- C1 counterexample: the two per-lab scorers do not agree for every
event set.  An openai event labelled with dimension `cloud` but affecting
checklist item `A1` (a `compute_chips` item) is ignored by the historical
dimension scorer (its per-dimension pass requires the event's `dimension`
to match and `A1` is not a cloud item), yet the incremental scorer pools
all affected items regardless of the event's `dimension` field and scores
`A1` under `compute_chips`: total 0 versus total 1 at the same reference
date 2024-01-31, over the same catalog. -/
theorem C1_counterexample :
    (Hist.calculateLabScore builtinChecklist
        [{ id := "e1", date := EDate.valid ⟨2024, 1, 15⟩, lab := some "openai",
           dimension := some "cloud", checklist_items_affected := ["A1"] }]
        ⟨2024, 1, 31⟩ "openai").map (fun o => o.map (fun s => s.total_score)) =
      .ok (some 0) ∧
    (Recalc.calculateLabScore "openai" (Recalc.getEventsInWindow
        [{ id := "e1", date := EDate.valid ⟨2024, 1, 15⟩, lab := some "openai",
           dimension := some "cloud", checklist_items_affected := ["A1"] }]
        ⟨86400 * toDays ⟨2024, 1, 31⟩⟩ Recalc.DECAY_WINDOW_DAYS)).map
        (fun s => s.total_score) = .ok 1 :=
  ⟨by decide, by decide⟩

/-- C1 (amended): over the incremental updater's own catalog, an event set
whose dates all parse and whose affected checklist items each resolve in
the catalog to the dimension named by the event's `dimension` field, and a
reference instant at midnight of the snapshot date, the incremental
per-lab scorer and the historical per-lab scorer (when the lab is already
founded at that date) agree on `total_score`, the per-dimension
`breakdown`, `events_count` and `last_event_date`; the trend baseline
(and the trend field) remain outside the correspondence. -/
theorem C1_amended_equivalence (events : List Event) (r : Date) (lab : String)
    (hv : ∀ e ∈ events, ∃ d, e.date = EDate.valid d)
    (hcons : ∀ e ∈ events, ∀ i ∈ e.checklist_items_affected, ∃ info,
      Recalc.CHECKLIST_ITEMS.lookup i = some info ∧ e.dimension = some info.dimension)
    (hfound : (Hist.LAB_FOUNDING_DATES lab).any (fun f => strLt (fmtDate r) f) = false) :
    ∃ sH sR,
      Hist.calculateLabScore builtinChecklist events r lab = .ok (some sH) ∧
      Recalc.calculateLabScore lab (Recalc.getEventsInWindow events
        ⟨86400 * toDays r⟩ Recalc.DECAY_WINDOW_DAYS) = .ok sR ∧
      sH.total_score = sR.total_score ∧ sH.breakdown = sR.breakdown ∧
      sH.events_count = sR.events_count ∧ sH.last_event_date = sR.last_event_date := by
  refine labs_agree_core events r lab _ (hist_window_ok events r lab hv)
    (windows_agree events r lab) ?_ ?_ hfound
  · intro e he
    exact hv e (List.mem_filter.mp he).1
  · intro e he
    exact hcons e (List.mem_filter.mp he).1

/-- Witness for the amended C1: a concrete dimension-consistent event set
on which the two scorers demonstrably agree. -/
theorem C1_amended_equivalence_witness :
    ∃ sH sR,
      Hist.calculateLabScore builtinChecklist
        [{ id := "e1", date := EDate.valid ⟨2024, 1, 15⟩, lab := some "openai",
           dimension := some "compute_chips", checklist_items_affected := ["A1"] }]
        ⟨2024, 1, 31⟩ "openai" = .ok (some sH) ∧
      Recalc.calculateLabScore "openai" (Recalc.getEventsInWindow
        [{ id := "e1", date := EDate.valid ⟨2024, 1, 15⟩, lab := some "openai",
           dimension := some "compute_chips", checklist_items_affected := ["A1"] }]
        ⟨86400 * toDays ⟨2024, 1, 31⟩⟩ Recalc.DECAY_WINDOW_DAYS) = .ok sR ∧
      sH.total_score = sR.total_score ∧ sH.breakdown = sR.breakdown ∧
      sH.events_count = sR.events_count ∧ sH.last_event_date = sR.last_event_date :=
  C1_amended_equivalence
    [{ id := "e1", date := EDate.valid ⟨2024, 1, 15⟩, lab := some "openai",
       dimension := some "compute_chips", checklist_items_affected := ["A1"] }]
    ⟨2024, 1, 31⟩ "openai"
    (fun e he => by
      simp only [List.mem_singleton] at he
      subst he
      exact ⟨⟨2024, 1, 15⟩, rfl⟩)
    (fun e he i hi => by
      simp only [List.mem_singleton] at he
      subst he
      simp only [List.mem_singleton] at hi
      subst hi
      exact ⟨⟨"compute_chips", 1⟩, rfl, rfl⟩)
    (by decide)
